import Mathlib

/-!
# opljs: the OPL output adapter of `src/index.cpp`

A shallow embedding of the sample sink (`SampleHandler`) and of the `OPL`
wrapper class, followed by the properties established about them.

Conventions of the embedding

* C++ machine integers are mathematical integers (`Int`, or `Nat` for the
  unsigned loop counters); every place where the C++ narrows a value is an
  explicit reduction modulo a power of two (`toBit32s`, `toInt16`, `toUInt8`).
* A C++ array reached through a pointer is the list of its elements.  A read
  or a write outside the array has no defined result in C++; here it yields
  `none`.
* The synthesis engine `DBOPL::Handler` is declared in `dbopl.h`, which is not
  part of the sources at hand.  It is a parameter of the development.
-/

namespace OPLJS

/-! ## Constants of `index.cpp` -/

/-- The constant `#define BUFFER_SIZE_SAMPLES 1024`. -/
def BUFFER_SIZE_SAMPLES : Int := 1024

/-- The constant `#define SAMPLE_SIZE 2`. -/
def SAMPLE_SIZE : Nat := 2

/-- The constant `#define VOL_AMP 1`. -/
def VOL_AMP : Nat := 1

/-- The constant `#define SAMP_BITS (SAMPLE_SIZE << 3)`. -/
def SAMP_BITS : Nat := SAMPLE_SIZE <<< 3

/-- The constant `#define SAMP_MAX ((1 << (SAMP_BITS-1)) - 1)`. -/
def SAMP_MAX : Int := ((1 <<< (SAMP_BITS - 1) : Nat) : Int) - 1

/-- The constant `#define SAMP_MIN -((1 << (SAMP_BITS-1)))`. -/
def SAMP_MIN : Int := -((1 <<< (SAMP_BITS - 1) : Nat) : Int)

/-- The clipping function
`#define CLIP(v) (((v) > SAMP_MAX) ? SAMP_MAX : (((v) < SAMP_MIN) ? SAMP_MIN : (v)))`. -/
def CLIP (v : Int) : Int :=
  if v > SAMP_MAX then SAMP_MAX else if v < SAMP_MIN then SAMP_MIN else v

/-! ## Machine integers -/

/-- The value of a signed two's-complement integer of `bits` bits that is
congruent to `x` modulo `2 ^ bits`. -/
def wrapSigned (bits : Nat) (x : Int) : Int :=
  (x + 2 ^ (bits - 1)) % 2 ^ bits - 2 ^ (bits - 1)

/-- Narrowing to `Bit32s` (a 32-bit signed integer). -/
def toBit32s (x : Int) : Int := wrapSigned 32 x

/-- Narrowing to `int16_t`. -/
def toInt16 (x : Int) : Int := wrapSigned 16 x

/-- Narrowing to `uint8_t`. -/
def toUInt8 (x : Int) : Nat := (x % 256).toNat

/-- The expression `x << k` evaluated in the type `Bit32s`: the bits shifted
out at the top are lost, the result is read back as a signed 32-bit value. -/
def shl32 (x : Int) (k : Nat) : Int := toBit32s (x * 2 ^ k)

/-- A value is representable in `Bit32s`. -/
def IsBit32s (x : Int) : Prop := -2 ^ 31 ≤ x ∧ x < 2 ^ 31

instance (x : Int) : Decidable (IsBit32s x) := by
  unfold IsBit32s; infer_instance

/-- The statement pair `Bit32s v = b << VOL_AMP; ... CLIP(v)`: the value that
both sink methods compute from the accumulator sample `b`. -/
def amplifyClip (b : Int) : Int := CLIP (shl32 b VOL_AMP)

/-! ## `class SampleHandler` -/

/-- The members of `SampleHandler`.  `jsbuffer` is the content of the
`int16_t` array the pointer member refers to; `channels` is a `uint8_t`. -/
structure SampleHandler where
  jsbuffer : List Int
  channels : Nat
  deriving DecidableEq, Repr

/-- The assignment `*out = v` into the `int16_t` array `mem`, `out` being the
offset of the pointer from the start of the array. -/
def store (mem : List Int) (out : Nat) (v : Int) : Option (List Int) :=
  if out < mem.length then some (mem.set out (toInt16 v)) else none

/-- The `for` loop of `AddSamples_m32`.  The first argument is the number of
iterations still to run (`samples - i`), then the loop counter `i`, the offset
of `out` and the output array. -/
def AddSamples_m32.loop (channels : Nat) (buffer : List Int) :
    Nat → Nat → Nat → List Int → Option (List Int)
  | 0, _, _, mem => some mem
  | k + 1, i, out, mem =>
    (buffer[i]?).bind fun b =>
      let v := shl32 b VOL_AMP
      (store mem out (CLIP v)).bind fun mem1 =>
        if channels = 2 then
          (store mem1 (out + 1) (CLIP v)).bind fun mem2 =>
            AddSamples_m32.loop channels buffer k (i + 1) (out + 2) mem2
        else
          AddSamples_m32.loop channels buffer k (i + 1) (out + 1) mem1

/-- The method `SampleHandler::AddSamples_m32(Bitu samples, Bit32s *buffer)`. -/
def SampleHandler.AddSamples_m32 (self : SampleHandler) (samples : Nat)
    (buffer : List Int) : Option SampleHandler :=
  (AddSamples_m32.loop self.channels buffer samples 0 0 self.jsbuffer).map
    fun mem => { self with jsbuffer := mem }

/-- The `for` loop of `AddSamples_s32`; arguments as for the mono loop. -/
def AddSamples_s32.loop (channels : Nat) (buffer : List Int) :
    Nat → Nat → Nat → List Int → Option (List Int)
  | 0, _, _, mem => some mem
  | k + 1, i, out, mem =>
    (buffer[i * 2]?).bind fun b =>
      let v := shl32 b VOL_AMP
      (store mem out (CLIP v)).bind fun mem1 =>
        if channels = 2 then
          (buffer[i * 2 + 1]?).bind fun b1 =>
            let v1 := shl32 b1 VOL_AMP
            (store mem1 (out + 1) (CLIP v1)).bind fun mem2 =>
              AddSamples_s32.loop channels buffer k (i + 1) (out + 2) mem2
        else
          AddSamples_s32.loop channels buffer k (i + 1) (out + 1) mem1

/-- The method `SampleHandler::AddSamples_s32(Bitu samples, Bit32s *buffer)`. -/
def SampleHandler.AddSamples_s32 (self : SampleHandler) (samples : Nat)
    (buffer : List Int) : Option SampleHandler :=
  (AddSamples_s32.loop self.channels buffer samples 0 0 self.jsbuffer).map
    fun mem => { self with jsbuffer := mem }

/-! ## The synthesis engine -/

/-- The sink method the engine calls back, with the `Bit32s` array it passes:
`m32` for `AddSamples_m32`, `s32` for `AddSamples_s32`. -/
inductive SinkCall where
  | m32 (buffer : List Int)
  | s32 (buffer : List Int)
  deriving DecidableEq, Repr

/-- Modelled from the spec: the engine `DBOPL::Handler`, declared in `dbopl.h`
and absent from the sources.  `σ` is the type of its internal state.  The
spec gives it three operations: `init(sampleRate)`,
`writeRegister(address, value)` and `generateBlock(frameCount, sink)`, the
last one producing internal-format samples and calling exactly one of the two
sink methods, exactly once.  `block chip n` is the state after generating `n`
frames together with the sink call made. -/
structure Handler (σ : Type) where
  fresh : σ
  Init : σ → Int → σ
  WriteReg : σ → Int → Int → σ
  block : σ → Nat → σ × SinkCall

/-- Modelled from the spec: `Handler::Generate(MixerChannel *chan, Bitu samples)`,
absent from the sources: "the engine calls exactly one of the two sink
methods, exactly once", passing it the frame count it was given. -/
def Handler.Generate {σ : Type} (E : Handler σ) (chip : σ) (chan : SampleHandler)
    (samples : Nat) : Option (σ × SampleHandler) :=
  match E.block chip samples with
  | (chip1, SinkCall.m32 buffer) =>
    (chan.AddSamples_m32 samples buffer).map fun chan1 => (chip1, chan1)
  | (chip1, SinkCall.s32 buffer) =>
    (chan.AddSamples_s32 samples buffer).map fun chan1 => (chip1, chan1)

/-- The number of accumulator values in a delivery of `n` frames: `n` for a
mono delivery, `2 * n` for a stereo one (interleaved L,R pairs). -/
def SinkCall.HasFrames : SinkCall → Nat → Prop
  | SinkCall.m32 buffer, n => buffer.length = n
  | SinkCall.s32 buffer, n => buffer.length = 2 * n

instance (d : SinkCall) (n : Nat) : Decidable (d.HasFrames n) := by
  cases d <;> unfold SinkCall.HasFrames <;> infer_instance

/-- Modelled from the spec: the engine delivers "exactly `frameCount`
internal frames" on every block generation. -/
def Handler.DeliversExactly {σ : Type} (E : Handler σ) : Prop :=
  ∀ (chip : σ) (n : Nat), (E.block chip n).2.HasFrames n

/-! ## `class OPL` -/

/-- The members of `OPL`.  The pointer member `jsbuffer` is the pointer held by
`mixer` (the constructor passes it on), so the array content is kept once, in
`mixer.jsbuffer`. -/
structure OPL (σ : Type) where
  dbopl : σ
  lenBufferSamples : Int
  mixer : SampleHandler
  channels : Int

/-- The array `OPL::jsbuffer` points to. -/
def OPL.jsbuffer {σ : Type} (self : OPL σ) : List Int := self.mixer.jsbuffer

/-- The result of `new int16_t[n]`: `n` elements of indeterminate value, each
an `int16_t`; `garbage` stands for what the memory happens to hold. -/
def newInt16Array (garbage : Nat → Int) (n : Nat) : List Int :=
  (List.range n).map fun i => toInt16 (garbage i)

/-- The constructor `OPL::OPL(int freq, int channels, int lenBufferSamples)`.  The array size
`BUFFER_SIZE_SAMPLES * channels` is an `int`; the allocation has no result when
it is negative or not an `int`. -/
def OPL.new {σ : Type} (E : Handler σ) (garbage : Nat → Int)
    (freq channels _lenBufferSamples : Int) : Option (OPL σ) :=
  if 0 ≤ BUFFER_SIZE_SAMPLES * channels ∧ BUFFER_SIZE_SAMPLES * channels < 2 ^ 31 then
    some
      { dbopl := E.Init E.fresh freq
        lenBufferSamples := BUFFER_SIZE_SAMPLES
        mixer :=
          { jsbuffer := newInt16Array garbage (BUFFER_SIZE_SAMPLES * channels).toNat
            channels := toUInt8 channels }
        channels := channels }
  else none

/-- The method `void OPL::write(int reg, int val)`. -/
def OPL.write {σ : Type} (E : Handler σ) (self : OPL σ) (reg val : Int) : OPL σ :=
  { self with dbopl := E.WriteReg self.dbopl reg val }

/-- The value `typed_memory_view(size, data)`: a length and the array viewed. -/
structure MemoryView where
  size : Int
  data : List Int
  deriving DecidableEq, Repr

/-- The method `val OPL::getBuffer()`. -/
def OPL.getBuffer {σ : Type} (self : OPL σ) : MemoryView :=
  { size := self.lenBufferSamples * self.channels, data := self.jsbuffer }

/-- The text of the error thrown for `lenSamples > 512`. -/
def errTooMany : String :=
  "OPL.generate() cannot generate more than 512 samples per call"

/-- The text of the error thrown for `lenSamples < 2`. -/
def errTooFew : String :=
  "OPL.generate() cannot generate fewer than 2 samples per call"

/-- The method `void OPL::generate(int lenSamples)`.  The outer `Option` is `none` when an
array is accessed out of bounds; otherwise the result is the outcome seen by
the caller (`Except.error msg` for the thrown `Error`) and the object after the
call. -/
def OPL.generate {σ : Type} (E : Handler σ) (self : OPL σ) (lenSamples : Int) :
    Option (Except String Unit × OPL σ) :=
  if lenSamples > 512 then
    some (Except.error errTooMany, self)
  else if lenSamples < 2 then
    some (Except.error errTooFew, self)
  else
    (E.Generate self.dbopl self.mixer lenSamples.toNat).map fun r =>
      (Except.ok (), { self with dbopl := r.1, mixer := r.2 })

/-- What the constructor establishes and every operation keeps: the sink holds
the channel count narrowed to `uint8_t`, and the array has
`BUFFER_SIZE_SAMPLES * channels` elements. -/
def OPL.Inv {σ : Type} (self : OPL σ) : Prop :=
  self.lenBufferSamples = BUFFER_SIZE_SAMPLES ∧
  self.mixer.channels = toUInt8 self.channels ∧
  (self.mixer.jsbuffer.length : Int) = BUFFER_SIZE_SAMPLES * self.channels

instance {σ : Type} (self : OPL σ) : Decidable self.Inv := by
  unfold OPL.Inv; infer_instance

/-! ## The wording of the specification -/

/-- Spec wording: "a saturating clamp to [-32768, 32767]". -/
def saturate16 (x : Int) : Int := max (-32768) (min 32767 x)

/-- An engine for examples: it has no state and delivers silence, `n` mono
frames when `stereo` is false and `n` stereo frames otherwise. -/
def silentEngine (stereo : Bool) : Handler Unit where
  fresh := ()
  Init := fun _ _ => ()
  WriteReg := fun _ _ _ => ()
  block := fun _ n =>
    ((), if stereo then SinkCall.s32 (List.replicate (2 * n) 0)
         else SinkCall.m32 (List.replicate n 0))

/-- The number of array elements a sink method writes per frame: two when the
test `channels == 2` of its loop succeeds, one otherwise. -/
def SampleHandler.stride (self : SampleHandler) : Nat :=
  if self.channels = 2 then 2 else 1

/-- The input element from which output position `j` is computed, for a sink
writing `stride` elements per frame. -/
def SinkCall.source (d : SinkCall) (stride j : Nat) : Option Int :=
  match d with
  | SinkCall.m32 buffer => buffer[j / stride]?
  | SinkCall.s32 buffer => buffer[j / stride * 2 + j % stride]?

/-- An adapter for examples, in the state the constructor leaves it in for a
non-negative channel count, every array element holding `fill`. -/
def demoOPL (channels fill : Int) : OPL Unit where
  dbopl := ()
  lenBufferSamples := BUFFER_SIZE_SAMPLES
  mixer :=
    { jsbuffer := List.replicate (BUFFER_SIZE_SAMPLES * channels).toNat fill
      channels := toUInt8 channels }
  channels := channels

/-- The callback `d` made on the sink with the frame count `samples`: a call of
`AddSamples_m32` or of `AddSamples_s32`. -/
def SampleHandler.deliver (self : SampleHandler) (samples : Nat) (d : SinkCall) :
    Option SampleHandler :=
  match d with
  | SinkCall.m32 buffer => self.AddSamples_m32 samples buffer
  | SinkCall.s32 buffer => self.AddSamples_s32 samples buffer

/-- The offsets, from the start of the output array, at which the loop of
`AddSamples_m32` executes an assignment `*out++ = ...`, in the order of
execution.  Arguments: the iterations still to run and the offset of `out`. -/
def AddSamples_m32.stores (channels : Nat) : Nat → Nat → List Nat
  | 0, _ => []
  | k + 1, out =>
    if channels = 2 then out :: (out + 1) :: AddSamples_m32.stores channels k (out + 2)
    else out :: AddSamples_m32.stores channels k (out + 1)

/-- The offsets at which the loop of `AddSamples_s32` executes an assignment
`*out++ = ...`, in the order of execution; arguments as for the mono loop. -/
def AddSamples_s32.stores (channels : Nat) : Nat → Nat → List Nat
  | 0, _ => []
  | k + 1, out =>
    if channels = 2 then out :: (out + 1) :: AddSamples_s32.stores channels k (out + 2)
    else out :: AddSamples_s32.stores channels k (out + 1)

/-- A call made by the host on the adapter. -/
inductive HostCall where
  | write (reg val : Int)
  | generate (lenSamples : Int)
  deriving DecidableEq, Repr

/-- The object after one host call, whether `generate` threw or not; `none`
when the call accessed an array out of bounds. -/
def OPL.step {σ : Type} (E : Handler σ) (self : OPL σ) : HostCall → Option (OPL σ)
  | HostCall.write reg val => some (self.write E reg val)
  | HostCall.generate lenSamples => (self.generate E lenSamples).map fun r => r.2

/-- The object after a sequence of host calls, made one after the other. -/
def OPL.run {σ : Type} (E : Handler σ) : OPL σ → List HostCall → Option (OPL σ)
  | self, [] => some self
  | self, c :: cs => (self.step E c).bind fun s1 => OPL.run E s1 cs

/-- Spec wording: "the interleaving of xs with itself (L_i = R_i = xs_i)". -/
def interleaveSelf : List Int → List Int
  | [] => []
  | x :: xs => x :: x :: interleaveSelf xs

/-- Spec wording: the left samples of an input "interleaved as L,R pairs". -/
def leftSamples : List Int → List Int
  | l :: _ :: rest => l :: leftSamples rest
  | _ => []

/-! ## Arithmetic of clipping and narrowing -/

theorem SAMP_MAX_eq : SAMP_MAX = 32767 := by decide

theorem SAMP_MIN_eq : SAMP_MIN = -32768 := by decide

theorem CLIP_eq (v : Int) :
    CLIP v = if v > 32767 then 32767 else if v < -32768 then -32768 else v := by
  unfold CLIP; rw [SAMP_MAX_eq, SAMP_MIN_eq]

theorem CLIP_lower (v : Int) : -32768 ≤ CLIP v := by
  rw [CLIP_eq]; split_ifs <;> omega

theorem CLIP_upper (v : Int) : CLIP v ≤ 32767 := by
  rw [CLIP_eq]; split_ifs <;> omega

theorem CLIP_eq_saturate16 (v : Int) : CLIP v = saturate16 v := by
  rw [CLIP_eq]; unfold saturate16; split_ifs <;> omega

theorem toInt16_of_range (x : Int) (h1 : -32768 ≤ x) (h2 : x ≤ 32767) : toInt16 x = x := by
  unfold toInt16 wrapSigned
  norm_num
  omega

theorem toInt16_CLIP (v : Int) : toInt16 (CLIP v) = CLIP v :=
  toInt16_of_range _ (CLIP_lower v) (CLIP_upper v)

theorem shl32_one (b : Int) : shl32 b VOL_AMP = (2 * b + 2147483648) % 4294967296 - 2147483648 := by
  unfold shl32 toBit32s wrapSigned VOL_AMP
  norm_num
  omega

theorem store_CLIP (mem : List Int) (out : Nat) (v : Int) (h : out < mem.length) :
    store mem out (CLIP v) = some (mem.set out (CLIP v)) := by
  unfold store; rw [if_pos h, toInt16_CLIP]

/-! ## The loops of the two sink methods

Each lemma states that the loop completes when the arrays are long enough, and
gives every element of the output array afterwards: position `j` of the
written range holds the clipped, amplified value of one input element, every
other position is as before. -/

theorem m32_loop_one (channels : Nat) (buffer : List Int) (hc : channels ≠ 2) :
    ∀ (k i out : Nat) (mem : List Int), i + k ≤ buffer.length → out + k ≤ mem.length →
      ∃ mem1, AddSamples_m32.loop channels buffer k i out mem = some mem1 ∧
        mem1.length = mem.length ∧
        ∀ j, mem1[j]? =
          if out ≤ j ∧ j < out + k then (buffer[i + (j - out)]?).map amplifyClip
          else mem[j]? := by
  intro k
  induction k with
  | zero =>
    intro i out mem _ _
    refine ⟨mem, rfl, rfl, fun j => ?_⟩
    rw [if_neg (by omega)]
  | succ k ih =>
    intro i out mem hi ho
    have hb : buffer[i]? = some buffer[i] := List.getElem?_eq_getElem (by omega)
    obtain ⟨mem1, h1, h2, h3⟩ :=
      ih (i + 1) (out + 1) (mem.set out (CLIP (shl32 buffer[i] VOL_AMP)))
        (by omega) (by rw [List.length_set]; omega)
    refine ⟨mem1, ?_, ?_, fun j => ?_⟩
    · simp only [AddSamples_m32.loop, hb, Option.some_bind,
        store_CLIP mem out _ (show out < mem.length by omega), if_neg hc]
      exact h1
    · rw [h2, List.length_set]
    · rw [h3 j]
      by_cases hj : out + 1 ≤ j ∧ j < out + 1 + k
      · rw [if_pos hj, if_pos (by omega)]
        congr 2
        omega
      · rw [if_neg hj]
        by_cases hj2 : j = out
        · subst hj2
          rw [if_pos (by omega), List.getElem?_set_self (by omega)]
          simp [hb, amplifyClip]
        · rw [if_neg (by omega), List.getElem?_set_ne (by omega)]

theorem m32_loop_two (buffer : List Int) :
    ∀ (k i out : Nat) (mem : List Int), i + k ≤ buffer.length → out + 2 * k ≤ mem.length →
      ∃ mem1, AddSamples_m32.loop 2 buffer k i out mem = some mem1 ∧
        mem1.length = mem.length ∧
        ∀ j, mem1[j]? =
          if out ≤ j ∧ j < out + 2 * k then (buffer[i + (j - out) / 2]?).map amplifyClip
          else mem[j]? := by
  intro k
  induction k with
  | zero =>
    intro i out mem _ _
    refine ⟨mem, rfl, rfl, fun j => ?_⟩
    rw [if_neg (by omega)]
  | succ k ih =>
    intro i out mem hi ho
    have hb : buffer[i]? = some buffer[i] := List.getElem?_eq_getElem (by omega)
    obtain ⟨mem1, h1, h2, h3⟩ :=
      ih (i + 1) (out + 2)
        ((mem.set out (CLIP (shl32 buffer[i] VOL_AMP))).set (out + 1)
          (CLIP (shl32 buffer[i] VOL_AMP)))
        (by omega) (by rw [List.length_set, List.length_set]; omega)
    refine ⟨mem1, ?_, ?_, fun j => ?_⟩
    · simp only [AddSamples_m32.loop, hb, Option.some_bind,
        store_CLIP mem out _ (show out < mem.length by omega), if_true]
      rw [store_CLIP _ (out + 1) _ (by rw [List.length_set]; omega)]
      exact h1
    · rw [h2, List.length_set, List.length_set]
    · rw [h3 j]
      by_cases hj : out + 2 ≤ j ∧ j < out + 2 + 2 * k
      · rw [if_pos hj, if_pos (by omega)]
        congr 2
        omega
      · rw [if_neg hj]
        by_cases hj1 : j = out + 1
        · subst hj1
          rw [if_pos (by omega),
            List.getElem?_set_self (by rw [List.length_set]; omega)]
          have : i + (out + 1 - out) / 2 = i := by omega
          simp [this, hb, amplifyClip]
        · rw [List.getElem?_set_ne (by omega)]
          by_cases hj2 : j = out
          · subst hj2
            rw [if_pos (by omega), List.getElem?_set_self (by omega)]
            simp [hb, amplifyClip]
          · rw [if_neg (by omega), List.getElem?_set_ne (by omega)]

theorem s32_loop_one (channels : Nat) (buffer : List Int) (hc : channels ≠ 2) :
    ∀ (k i out : Nat) (mem : List Int), 2 * (i + k) ≤ buffer.length → out + k ≤ mem.length →
      ∃ mem1, AddSamples_s32.loop channels buffer k i out mem = some mem1 ∧
        mem1.length = mem.length ∧
        ∀ j, mem1[j]? =
          if out ≤ j ∧ j < out + k then (buffer[(i + (j - out)) * 2]?).map amplifyClip
          else mem[j]? := by
  intro k
  induction k with
  | zero =>
    intro i out mem _ _
    refine ⟨mem, rfl, rfl, fun j => ?_⟩
    rw [if_neg (by omega)]
  | succ k ih =>
    intro i out mem hi ho
    have hb : buffer[i * 2]? = some buffer[i * 2] := List.getElem?_eq_getElem (by omega)
    obtain ⟨mem1, h1, h2, h3⟩ :=
      ih (i + 1) (out + 1) (mem.set out (CLIP (shl32 buffer[i * 2] VOL_AMP)))
        (by omega) (by rw [List.length_set]; omega)
    refine ⟨mem1, ?_, ?_, fun j => ?_⟩
    · simp only [AddSamples_s32.loop, hb, Option.some_bind,
        store_CLIP mem out _ (show out < mem.length by omega), if_neg hc]
      exact h1
    · rw [h2, List.length_set]
    · rw [h3 j]
      by_cases hj : out + 1 ≤ j ∧ j < out + 1 + k
      · rw [if_pos hj, if_pos (by omega)]
        congr 2
        omega
      · rw [if_neg hj]
        by_cases hj2 : j = out
        · subst hj2
          rw [if_pos (by omega), List.getElem?_set_self (by omega)]
          simp [hb, amplifyClip]
        · rw [if_neg (by omega), List.getElem?_set_ne (by omega)]

theorem s32_loop_two (buffer : List Int) :
    ∀ (k i out : Nat) (mem : List Int), 2 * (i + k) ≤ buffer.length →
      out + 2 * k ≤ mem.length →
      ∃ mem1, AddSamples_s32.loop 2 buffer k i out mem = some mem1 ∧
        mem1.length = mem.length ∧
        ∀ j, mem1[j]? =
          if out ≤ j ∧ j < out + 2 * k then (buffer[i * 2 + (j - out)]?).map amplifyClip
          else mem[j]? := by
  intro k
  induction k with
  | zero =>
    intro i out mem _ _
    refine ⟨mem, rfl, rfl, fun j => ?_⟩
    rw [if_neg (by omega)]
  | succ k ih =>
    intro i out mem hi ho
    have hb : buffer[i * 2]? = some buffer[i * 2] := List.getElem?_eq_getElem (by omega)
    have hb1 : buffer[i * 2 + 1]? = some buffer[i * 2 + 1] :=
      List.getElem?_eq_getElem (by omega)
    obtain ⟨mem1, h1, h2, h3⟩ :=
      ih (i + 1) (out + 2)
        ((mem.set out (CLIP (shl32 buffer[i * 2] VOL_AMP))).set (out + 1)
          (CLIP (shl32 buffer[i * 2 + 1] VOL_AMP)))
        (by omega) (by rw [List.length_set, List.length_set]; omega)
    refine ⟨mem1, ?_, ?_, fun j => ?_⟩
    · simp only [AddSamples_s32.loop, hb, hb1, Option.some_bind,
        store_CLIP mem out _ (show out < mem.length by omega), if_true]
      rw [store_CLIP _ (out + 1) _ (by rw [List.length_set]; omega)]
      exact h1
    · rw [h2, List.length_set, List.length_set]
    · rw [h3 j]
      by_cases hj : out + 2 ≤ j ∧ j < out + 2 + 2 * k
      · rw [if_pos hj, if_pos (by omega)]
        congr 2
        omega
      · rw [if_neg hj]
        by_cases hj1 : j = out + 1
        · subst hj1
          rw [if_pos (by omega),
            List.getElem?_set_self (by rw [List.length_set]; omega)]
          have : i * 2 + (out + 1 - out) = i * 2 + 1 := by omega
          simp [this, hb1, amplifyClip]
        · rw [List.getElem?_set_ne (by omega)]
          by_cases hj2 : j = out
          · subst hj2
            rw [if_pos (by omega), List.getElem?_set_self (by omega)]
            simp [hb, amplifyClip]
          · rw [if_neg (by omega), List.getElem?_set_ne (by omega)]

/-! ## The sink methods and `generate` as a whole -/

theorem SampleHandler.AddSamples_m32_spec (self : SampleHandler) (n : Nat) (buffer : List Int)
    (hb : n ≤ buffer.length) (hcap : n * self.stride ≤ self.jsbuffer.length) :
    ∃ r, self.AddSamples_m32 n buffer = some r ∧ r.channels = self.channels ∧
      r.jsbuffer.length = self.jsbuffer.length ∧
      ∀ j, r.jsbuffer[j]? =
        if j < n * self.stride then (buffer[j / self.stride]?).map amplifyClip
        else self.jsbuffer[j]? := by
  unfold SampleHandler.stride at *
  by_cases hc : self.channels = 2
  · rw [if_pos hc] at hcap
    obtain ⟨mem1, h1, h2, h3⟩ :=
      m32_loop_two buffer n 0 0 self.jsbuffer (by omega) (by omega)
    refine ⟨{ self with jsbuffer := mem1 }, ?_, rfl, h2, fun j => ?_⟩
    · unfold SampleHandler.AddSamples_m32
      rw [hc, h1]; rfl
    · show mem1[j]? = _
      rw [h3 j, if_pos hc]
      by_cases hj : j < n * 2
      · rw [if_pos hj, if_pos (by omega)]; simp
      · rw [if_neg hj, if_neg (by omega)]
  · rw [if_neg hc] at hcap
    obtain ⟨mem1, h1, h2, h3⟩ :=
      m32_loop_one self.channels buffer hc n 0 0 self.jsbuffer (by omega) (by omega)
    refine ⟨{ self with jsbuffer := mem1 }, ?_, rfl, h2, fun j => ?_⟩
    · unfold SampleHandler.AddSamples_m32
      rw [h1]; rfl
    · show mem1[j]? = _
      rw [h3 j, if_neg hc]
      by_cases hj : j < n * 1
      · rw [if_pos hj, if_pos (by omega)]; simp
      · rw [if_neg hj, if_neg (by omega)]

theorem SampleHandler.AddSamples_s32_spec (self : SampleHandler) (n : Nat) (buffer : List Int)
    (hb : 2 * n ≤ buffer.length) (hcap : n * self.stride ≤ self.jsbuffer.length) :
    ∃ r, self.AddSamples_s32 n buffer = some r ∧ r.channels = self.channels ∧
      r.jsbuffer.length = self.jsbuffer.length ∧
      ∀ j, r.jsbuffer[j]? =
        if j < n * self.stride then
          (buffer[j / self.stride * 2 + j % self.stride]?).map amplifyClip
        else self.jsbuffer[j]? := by
  unfold SampleHandler.stride at *
  by_cases hc : self.channels = 2
  · rw [if_pos hc] at hcap
    obtain ⟨mem1, h1, h2, h3⟩ :=
      s32_loop_two buffer n 0 0 self.jsbuffer (by omega) (by omega)
    refine ⟨{ self with jsbuffer := mem1 }, ?_, rfl, h2, fun j => ?_⟩
    · unfold SampleHandler.AddSamples_s32
      rw [hc, h1]; rfl
    · show mem1[j]? = _
      rw [h3 j, if_pos hc]
      by_cases hj : j < n * 2
      · rw [if_pos hj, if_pos (by omega)]
        have : 0 * 2 + (j - 0) = j / 2 * 2 + j % 2 := by omega
        rw [this]
      · rw [if_neg hj, if_neg (by omega)]
  · rw [if_neg hc] at hcap
    obtain ⟨mem1, h1, h2, h3⟩ :=
      s32_loop_one self.channels buffer hc n 0 0 self.jsbuffer (by omega) (by omega)
    refine ⟨{ self with jsbuffer := mem1 }, ?_, rfl, h2, fun j => ?_⟩
    · unfold SampleHandler.AddSamples_s32
      rw [h1]; rfl
    · show mem1[j]? = _
      rw [h3 j, if_neg hc]
      by_cases hj : j < n * 1
      · rw [if_pos hj, if_pos (by omega)]
        have : (0 + (j - 0)) * 2 = j / 1 * 2 + j % 1 := by omega
        rw [this]
      · rw [if_neg hj, if_neg (by omega)]

theorem Handler.Generate_spec {σ : Type} (E : Handler σ) (chip : σ) (chan : SampleHandler)
    (n : Nat) (hd : (E.block chip n).2.HasFrames n)
    (hcap : n * chan.stride ≤ chan.jsbuffer.length) :
    ∃ r, E.Generate chip chan n = some ((E.block chip n).1, r) ∧ r.channels = chan.channels ∧
      r.jsbuffer.length = chan.jsbuffer.length ∧
      ∀ j, r.jsbuffer[j]? =
        if j < n * chan.stride then ((E.block chip n).2.source chan.stride j).map amplifyClip
        else chan.jsbuffer[j]? := by
  unfold Handler.Generate
  rcases hblk : E.block chip n with ⟨chip1, d⟩
  rw [hblk] at hd
  cases d with
  | m32 buffer =>
    have hlen : buffer.length = n := hd
    obtain ⟨r, h1, h2, h3, h4⟩ := chan.AddSamples_m32_spec n buffer (by omega) hcap
    exact ⟨r, by simp [h1], h2, h3, h4⟩
  | s32 buffer =>
    have hlen : buffer.length = 2 * n := hd
    obtain ⟨r, h1, h2, h3, h4⟩ := chan.AddSamples_s32_spec n buffer (by omega) hcap
    exact ⟨r, by simp [h1], h2, h3, h4⟩

theorem toUInt8_one : toUInt8 1 = 1 := by decide

theorem toUInt8_two : toUInt8 2 = 2 := by decide

/-- For one or two output channels the sink writes as many elements per frame
as there are channels. -/
theorem OPL.stride_eq {σ : Type} (self : OPL σ) (hinv : self.Inv)
    (hch : self.channels = 1 ∨ self.channels = 2) :
    (self.mixer.stride : Int) = self.channels := by
  obtain ⟨_, h2, _⟩ := hinv
  unfold SampleHandler.stride
  rcases hch with h | h
  · rw [h2, h, toUInt8_one]; simp
  · rw [h2, h, toUInt8_two]; simp

/-- The array is large enough for an accepted frame count as soon as there is
at least one channel. -/
theorem OPL.capacity_ok {σ : Type} (self : OPL σ) (hinv : self.Inv) (hch : 1 ≤ self.channels)
    (n : Int) (hn : n ≤ 512) : n.toNat * self.mixer.stride ≤ self.mixer.jsbuffer.length := by
  obtain ⟨_, h2, h3⟩ := hinv
  unfold BUFFER_SIZE_SAMPLES at h3
  unfold SampleHandler.stride
  by_cases hc : self.mixer.channels = 2
  · rw [if_pos hc]
    have h4 : self.channels ≠ 1 := by
      intro h; rw [h, toUInt8_one] at h2; omega
    omega
  · rw [if_neg hc]; omega

theorem OPL.generate_spec {σ : Type} (E : Handler σ) (self : OPL σ) (n : Int)
    (hinv : self.Inv) (hch : 1 ≤ self.channels) (hE : E.DeliversExactly)
    (h2 : 2 ≤ n) (h512 : n ≤ 512) :
    ∃ r, E.Generate self.dbopl self.mixer n.toNat = some ((E.block self.dbopl n.toNat).1, r) ∧
      self.generate E n =
        some (Except.ok (), { self with dbopl := (E.block self.dbopl n.toNat).1, mixer := r }) ∧
      r.channels = self.mixer.channels ∧
      r.jsbuffer.length = self.mixer.jsbuffer.length ∧
      ∀ j, r.jsbuffer[j]? =
        if j < n.toNat * self.mixer.stride then
          ((E.block self.dbopl n.toNat).2.source self.mixer.stride j).map amplifyClip
        else self.mixer.jsbuffer[j]? := by
  obtain ⟨r, h1, hc, hl, hj⟩ :=
    E.Generate_spec self.dbopl self.mixer n.toNat (hE _ _) (self.capacity_ok hinv hch n h512)
  refine ⟨r, h1, ?_, hc, hl, hj⟩
  unfold OPL.generate
  rw [if_neg (by omega), if_neg (by omega), h1]
  rfl

/-! ## The invariant -/

theorem newInt16Array_length (garbage : Nat → Int) (n : Nat) :
    (newInt16Array garbage n).length = n := by
  simp [newInt16Array]

theorem OPL.new_eq_some {σ : Type} (E : Handler σ) (garbage : Nat → Int)
    (freq channels len : Int) (h0 : 0 ≤ channels) (h1 : channels < 2097152) :
    OPL.new E garbage freq channels len = some
      { dbopl := E.Init E.fresh freq
        lenBufferSamples := BUFFER_SIZE_SAMPLES
        mixer :=
          { jsbuffer := newInt16Array garbage (BUFFER_SIZE_SAMPLES * channels).toNat
            channels := toUInt8 channels }
        channels := channels } := by
  unfold OPL.new
  rw [if_pos]
  unfold BUFFER_SIZE_SAMPLES
  constructor <;> omega

theorem OPL.new_inv {σ : Type} (E : Handler σ) (garbage : Nat → Int)
    (freq channels len : Int) (s : OPL σ) (h : OPL.new E garbage freq channels len = some s) :
    s.Inv ∧ s.channels = channels := by
  unfold OPL.new at h
  split_ifs at h with hc
  cases h
  refine ⟨⟨rfl, rfl, ?_⟩, rfl⟩
  simp only [newInt16Array_length]
  exact Int.toNat_of_nonneg hc.1

theorem OPL.write_inv {σ : Type} (E : Handler σ) (self : OPL σ) (reg val : Int)
    (h : self.Inv) : (self.write E reg val).Inv := h

theorem demoOPL_inv (channels fill : Int) (h : 0 ≤ channels) : (demoOPL channels fill).Inv := by
  refine ⟨rfl, rfl, ?_⟩
  simp only [demoOPL, List.length_replicate]
  exact Int.toNat_of_nonneg (by unfold BUFFER_SIZE_SAMPLES; omega)

theorem silentEngine_delivers (stereo : Bool) : (silentEngine stereo).DeliversExactly := by
  intro chip n
  cases stereo <;> simp [silentEngine, SinkCall.HasFrames]

/-! ## Amplification and clipping (C1) -/

/-- C1: the shift `buffer[i] << VOL_AMP` is evaluated in `Bit32s`, before `CLIP`
sees the value.  For the accumulator values `0x7FFFFFFF` and `-0x7FFFFFFF`,
both representable in `Bit32s`, both sink methods store `-2` and `2`, whereas
the saturating clamp of the exact products is `32767` and `-32768`. -/
theorem C1_shift_wraps_before_clip :
    IsBit32s 0x7FFFFFFF ∧ IsBit32s (-0x7FFFFFFF) ∧
    (SampleHandler.mk [0, 0] 1).AddSamples_m32 2 [0x7FFFFFFF, -0x7FFFFFFF]
      = some (SampleHandler.mk [-2, 2] 1) ∧
    (SampleHandler.mk [0, 0, 0, 0] 2).AddSamples_s32 2
        [0x7FFFFFFF, -0x7FFFFFFF, -0x7FFFFFFF, 0x7FFFFFFF]
      = some (SampleHandler.mk [-2, 2, 2, -2] 2) ∧
    saturate16 (2 * 0x7FFFFFFF) = 32767 ∧ saturate16 (2 * -0x7FFFFFFF) = -32768 := by
  decide

/-! ## The size contract of `generate` (C2, C3) -/

/-- C2: `generate(frameCount)` ends in the thrown error exactly when
`frameCount < 2` or `frameCount > 512`; for `2 ≤ frameCount ≤ 512` it succeeds,
and the object afterwards is the one obtained from a single run of the
engine's `Generate` on the sink with that very frame count. -/
theorem C2_generate_fails_iff_out_of_range {σ : Type} (E : Handler σ) (self : OPL σ)
    (frameCount : Int) (hinv : self.Inv) (hch : 1 ≤ self.channels)
    (hE : E.DeliversExactly) :
    ((∃ msg s1, self.generate E frameCount = some (Except.error msg, s1)) ↔
      (frameCount < 2 ∨ frameCount > 512)) ∧
    (2 ≤ frameCount ∧ frameCount ≤ 512 →
      (frameCount.toNat : Int) = frameCount ∧
      ∃ chan1,
        E.Generate self.dbopl self.mixer frameCount.toNat
          = some ((E.block self.dbopl frameCount.toNat).1, chan1) ∧
        self.generate E frameCount
          = some (Except.ok (),
              { self with dbopl := (E.block self.dbopl frameCount.toNat).1, mixer := chan1 })) := by
  have hok : 2 ≤ frameCount ∧ frameCount ≤ 512 →
      ∃ chan1,
        E.Generate self.dbopl self.mixer frameCount.toNat
          = some ((E.block self.dbopl frameCount.toNat).1, chan1) ∧
        self.generate E frameCount
          = some (Except.ok (),
              { self with dbopl := (E.block self.dbopl frameCount.toNat).1, mixer := chan1 }) := by
    rintro ⟨h2, h512⟩
    obtain ⟨r, h1, hg, _⟩ := OPL.generate_spec E self frameCount hinv hch hE h2 h512
    exact ⟨r, h1, hg⟩
  refine ⟨⟨?_, ?_⟩, fun h => ⟨Int.toNat_of_nonneg (by omega), hok h⟩⟩
  · rintro ⟨msg, s1, h⟩
    by_contra hc
    obtain ⟨r, _, hg⟩ := hok ⟨by omega, by omega⟩
    rw [hg] at h
    cases h
  · intro h
    unfold OPL.generate
    by_cases h512 : frameCount > 512
    · exact ⟨errTooMany, self, by rw [if_pos h512]⟩
    · exact ⟨errTooFew, self, by rw [if_neg h512, if_pos (by omega)]⟩

theorem C2_generate_fails_iff_out_of_range_witness :
    (demoOPL 2 7).Inv ∧ 1 ≤ (demoOPL 2 7).channels ∧ (silentEngine false).DeliversExactly ∧
    (((∃ msg s1, (demoOPL 2 7).generate (silentEngine false) 64 = some (Except.error msg, s1)) ↔
      ((64 : Int) < 2 ∨ (64 : Int) > 512)) ∧
    (2 ≤ (64 : Int) ∧ (64 : Int) ≤ 512 →
      (((64 : Int).toNat : Int) = 64) ∧
      ∃ chan1,
        (silentEngine false).Generate (demoOPL 2 7).dbopl (demoOPL 2 7).mixer (64 : Int).toNat
          = some (((silentEngine false).block (demoOPL 2 7).dbopl (64 : Int).toNat).1, chan1) ∧
        (demoOPL 2 7).generate (silentEngine false) 64
          = some (Except.ok (),
              { demoOPL 2 7 with
                dbopl := ((silentEngine false).block (demoOPL 2 7).dbopl (64 : Int).toNat).1,
                mixer := chan1 }))) :=
  ⟨demoOPL_inv 2 7 (by decide), by decide, silentEngine_delivers false,
    C2_generate_fails_iff_out_of_range (silentEngine false) (demoOPL 2 7) 64
      (demoOPL_inv 2 7 (by decide)) (by decide) (silentEngine_delivers false)⟩

/-- C3: a `generate(frameCount)` with `frameCount < 2` or `frameCount > 512` ends
in the thrown error and leaves the whole object as it was: the engine state
(no call reached the engine), every array element, the channel count and the
length reported by `getBuffer`. -/
theorem C3_rejected_generate_changes_nothing {σ : Type} (E : Handler σ) (self : OPL σ)
    (frameCount : Int) (h : frameCount < 2 ∨ frameCount > 512) :
    ∃ msg s1, self.generate E frameCount = some (Except.error msg, s1) ∧
      s1 = self ∧ s1.dbopl = self.dbopl ∧ s1.jsbuffer = self.jsbuffer ∧
      s1.channels = self.channels ∧ s1.getBuffer = self.getBuffer := by
  unfold OPL.generate
  by_cases h512 : frameCount > 512
  · exact ⟨errTooMany, self, by rw [if_pos h512], rfl, rfl, rfl, rfl, rfl⟩
  · exact ⟨errTooFew, self, by rw [if_neg h512, if_pos (by omega)], rfl, rfl, rfl, rfl, rfl⟩

theorem C3_rejected_generate_changes_nothing_witness :
    ((513 : Int) < 2 ∨ (513 : Int) > 512) ∧
    ∃ msg s1, (demoOPL 2 7).generate (silentEngine true) 513 = some (Except.error msg, s1) ∧
      s1 = demoOPL 2 7 ∧ s1.dbopl = (demoOPL 2 7).dbopl ∧ s1.jsbuffer = (demoOPL 2 7).jsbuffer ∧
      s1.channels = (demoOPL 2 7).channels ∧ s1.getBuffer = (demoOPL 2 7).getBuffer :=
  ⟨by decide,
    C3_rejected_generate_changes_nothing (silentEngine true) (demoOPL 2 7) 513 (by decide)⟩

/-! ## The length of the view (C4) -/

/-- C4: for one or two output channels and any requested buffer length the
constructor succeeds and `getBuffer` reports `1024 * channels` elements (the
array has that many), before and after a `write` followed by an accepted
`generate`; this is twice the `512 * channels` of the specification. -/
theorem C4_getBuffer_reports_1024_per_channel {σ : Type} (E : Handler σ) (garbage : Nat → Int)
    (freq channels requestedBufferFrames reg val frameCount : Int)
    (hch : channels = 1 ∨ channels = 2) (hE : E.DeliversExactly)
    (h2 : 2 ≤ frameCount) (h512 : frameCount ≤ 512) :
    ∃ s0 s1, OPL.new E garbage freq channels requestedBufferFrames = some s0 ∧
      s0.getBuffer.size = 1024 * channels ∧
      (s0.getBuffer.data.length : Int) = 1024 * channels ∧
      (s0.write E reg val).generate E frameCount = some (Except.ok (), s1) ∧
      s1.getBuffer.size = 1024 * channels ∧
      (s1.getBuffer.data.length : Int) = 1024 * channels ∧
      s1.getBuffer.size ≠ 512 * channels := by
  obtain ⟨s0, hnew⟩ : ∃ s0, OPL.new E garbage freq channels requestedBufferFrames = some s0 :=
    ⟨_, OPL.new_eq_some E garbage freq channels requestedBufferFrames (by omega) (by omega)⟩
  obtain ⟨hinv, hc⟩ := OPL.new_inv E garbage freq channels requestedBufferFrames s0 hnew
  have hl0 : s0.lenBufferSamples = BUFFER_SIZE_SAMPLES := hinv.1
  have hc1 : (s0.write E reg val).channels = channels := hc
  obtain ⟨r, _, hg, _, hl, _⟩ := OPL.generate_spec E (s0.write E reg val) frameCount
    (OPL.write_inv E s0 reg val hinv) (by rw [hc1]; omega) hE h2 h512
  have hlen : (s0.mixer.jsbuffer.length : Int) = 1024 * channels := by
    rw [hinv.2.2, hc]; rfl
  refine ⟨s0, _, hnew, ?_, hlen, hg, ?_, ?_, ?_⟩
  · show s0.lenBufferSamples * s0.channels = _
    rw [hl0, hc]; rfl
  · show s0.lenBufferSamples * s0.channels = _
    rw [hl0, hc]; rfl
  · show (r.jsbuffer.length : Int) = _
    rw [hl]; exact hlen
  · show s0.lenBufferSamples * s0.channels ≠ _
    rw [hl0, hc]; unfold BUFFER_SIZE_SAMPLES; omega

theorem C4_getBuffer_reports_1024_per_channel_witness :
    ((2 : Int) = 1 ∨ (2 : Int) = 2) ∧ (silentEngine true).DeliversExactly ∧
    (2 : Int) ≤ 64 ∧ (64 : Int) ≤ 512 ∧
    ∃ s0 s1, OPL.new (silentEngine true) (fun _ => 0) 49716 2 1024 = some s0 ∧
      s0.getBuffer.size = 1024 * 2 ∧
      (s0.getBuffer.data.length : Int) = 1024 * 2 ∧
      (s0.write (silentEngine true) 0x20 0x01).generate (silentEngine true) 64
        = some (Except.ok (), s1) ∧
      s1.getBuffer.size = 1024 * 2 ∧
      (s1.getBuffer.data.length : Int) = 1024 * 2 ∧
      s1.getBuffer.size ≠ 512 * 2 :=
  ⟨by decide, silentEngine_delivers true, by decide, by decide,
    C4_getBuffer_reports_1024_per_channel (silentEngine true) (fun _ => 0) 49716 2 1024 0x20 0x01 64
      (by decide) (silentEngine_delivers true) (by decide) (by decide)⟩

/-! ## Range of the written samples (C5) -/

/-- C5: for `2 ≤ frameCount ≤ 512`, one or two output channels and whatever the
engine delivers, `generate(frameCount)` succeeds and each of the first
`frameCount * channels` array elements afterwards lies in `[-32768, 32767]`. -/
theorem C5_written_samples_in_int16_range {σ : Type} (E : Handler σ) (self : OPL σ)
    (frameCount : Int) (hinv : self.Inv) (hch : self.channels = 1 ∨ self.channels = 2)
    (hE : E.DeliversExactly) (h2 : 2 ≤ frameCount) (h512 : frameCount ≤ 512) :
    ∃ s1, self.generate E frameCount = some (Except.ok (), s1) ∧
      ∀ j : Nat, (j : Int) < frameCount * self.channels →
        ∃ v, s1.jsbuffer[j]? = some v ∧ -32768 ≤ v ∧ v ≤ 32767 := by
  obtain ⟨r, _, hg, _, hl, hj⟩ :=
    OPL.generate_spec E self frameCount hinv (by omega) hE h2 h512
  refine ⟨_, hg, fun j hjlt => ?_⟩
  have hs := self.stride_eq hinv hch
  have hlt : j < frameCount.toNat * self.mixer.stride := by
    have : ((frameCount.toNat * self.mixer.stride : Nat) : Int) = frameCount * self.channels := by
      rw [Nat.cast_mul, hs, Int.toNat_of_nonneg (by omega)]
    omega
  have hval := hj j
  rw [if_pos hlt] at hval
  have hcap := self.capacity_ok hinv (by omega) frameCount h512
  have hsome : r.jsbuffer[j]? = some r.jsbuffer[j] :=
    List.getElem?_eq_getElem (by omega)
  rw [hsome] at hval
  obtain ⟨b, _, hb⟩ := Option.map_eq_some'.mp hval.symm
  refine ⟨r.jsbuffer[j], hsome, ?_, ?_⟩
  · rw [← hb]; exact CLIP_lower _
  · rw [← hb]; exact CLIP_upper _

theorem C5_written_samples_in_int16_range_witness :
    (demoOPL 2 99999).Inv ∧ ((demoOPL 2 99999).channels = 1 ∨ (demoOPL 2 99999).channels = 2) ∧
    (silentEngine true).DeliversExactly ∧ (2 : Int) ≤ 512 ∧ (512 : Int) ≤ 512 ∧
    ∃ s1, (demoOPL 2 99999).generate (silentEngine true) 512 = some (Except.ok (), s1) ∧
      ∀ j : Nat, (j : Int) < 512 * (demoOPL 2 99999).channels →
        ∃ v, s1.jsbuffer[j]? = some v ∧ -32768 ≤ v ∧ v ≤ 32767 :=
  ⟨demoOPL_inv 2 99999 (by decide), Or.inr rfl, silentEngine_delivers true, by decide, by decide,
    C5_written_samples_in_int16_range (silentEngine true) (demoOPL 2 99999) 512
      (demoOPL_inv 2 99999 (by decide)) (Or.inr rfl) (silentEngine_delivers true)
      (by decide) (by decide)⟩

/-! ## Channel layout of the two sink methods (C6, C7, C8) -/

/-- C6: mono delivery of the samples `xs`.  With one output channel, element `i`
of the array is the amplified and clipped value of sample `i`; with two,
elements `2 * i` and `2 * i + 1` both are. -/
theorem C6_mono_delivery_layout (self : SampleHandler) (xs : List Int)
    (hc : self.channels = 1 ∨ self.channels = 2)
    (hcap : xs.length * self.channels ≤ self.jsbuffer.length) :
    ∃ r, self.AddSamples_m32 xs.length xs = some r ∧
      ∀ (i : Nat) (hi : i < xs.length),
        (self.channels = 1 → r.jsbuffer[i]? = some (amplifyClip xs[i])) ∧
        (self.channels = 2 →
          r.jsbuffer[2 * i]? = some (amplifyClip xs[i]) ∧
          r.jsbuffer[2 * i + 1]? = some (amplifyClip xs[i])) := by
  have hst : self.stride = self.channels := by
    unfold SampleHandler.stride
    rcases hc with h | h <;> simp [h]
  obtain ⟨r, h1, _, _, hj⟩ :=
    self.AddSamples_m32_spec xs.length xs le_rfl (by rw [hst]; exact hcap)
  refine ⟨r, h1, fun i hi => ⟨fun h => ?_, fun h => ⟨?_, ?_⟩⟩⟩
  · rw [hj i, hst, h, if_pos (by omega), Nat.div_one, List.getElem?_eq_getElem hi]
    rfl
  · rw [hj (2 * i), hst, h, if_pos (by omega), show 2 * i / 2 = i by omega,
      List.getElem?_eq_getElem hi]
    rfl
  · rw [hj (2 * i + 1), hst, h, if_pos (by omega), show (2 * i + 1) / 2 = i by omega,
      List.getElem?_eq_getElem hi]
    rfl

theorem C6_mono_delivery_layout_witness :
    ((SampleHandler.mk [7, 7, 7, 7, 7] 2).channels = 1 ∨
      (SampleHandler.mk [7, 7, 7, 7, 7] 2).channels = 2) ∧
    [100, -20000].length * (SampleHandler.mk [7, 7, 7, 7, 7] 2).channels
      ≤ (SampleHandler.mk [7, 7, 7, 7, 7] 2).jsbuffer.length ∧
    ∃ r, (SampleHandler.mk [7, 7, 7, 7, 7] 2).AddSamples_m32 [100, -20000].length [100, -20000]
        = some r ∧
      ∀ (i : Nat) (hi : i < [100, -20000].length),
        ((SampleHandler.mk [7, 7, 7, 7, 7] 2).channels = 1 →
          r.jsbuffer[i]? = some (amplifyClip ([100, -20000] : List Int)[i])) ∧
        ((SampleHandler.mk [7, 7, 7, 7, 7] 2).channels = 2 →
          r.jsbuffer[2 * i]? = some (amplifyClip ([100, -20000] : List Int)[i]) ∧
          r.jsbuffer[2 * i + 1]? = some (amplifyClip ([100, -20000] : List Int)[i])) :=
  ⟨by decide, by decide,
    C6_mono_delivery_layout (SampleHandler.mk [7, 7, 7, 7, 7] 2) [100, -20000]
      (by decide) (by decide)⟩

/-- C7: stereo delivery with one output channel.  Two interleaved inputs of `n`
frames with the same left samples give the same sink state, whatever their
right samples, and element `i` of the array is the amplified and clipped left
sample of frame `i`. -/
theorem C7_stereo_to_mono_ignores_right (self : SampleHandler) (n : Nat) (xs ys : List Int)
    (hc : self.channels = 1) (hx : xs.length = 2 * n) (hy : ys.length = 2 * n)
    (hleft : ∀ i, i < n → xs[2 * i]? = ys[2 * i]?) (hcap : n ≤ self.jsbuffer.length) :
    ∃ r, self.AddSamples_s32 n xs = some r ∧ self.AddSamples_s32 n ys = some r ∧
      ∀ i, i < n → ∃ l, xs[2 * i]? = some l ∧ r.jsbuffer[i]? = some (amplifyClip l) := by
  have hst : self.stride = 1 := by
    unfold SampleHandler.stride; simp [hc]
  obtain ⟨r, h1, hrc, _, hj⟩ := self.AddSamples_s32_spec n xs (by omega) (by rw [hst]; omega)
  obtain ⟨r2, h2, hrc2, _, hj2⟩ := self.AddSamples_s32_spec n ys (by omega) (by rw [hst]; omega)
  have hsrc : ∀ j, j / 1 * 2 + j % 1 = 2 * j := by intro j; omega
  have heq : r2 = r := by
    cases r with
    | mk mem c =>
      cases r2 with
      | mk mem2 c2 =>
        have hcc : c2 = c := by
          have e1 : c = self.channels := hrc
          have e2 : c2 = self.channels := hrc2
          rw [e1, e2]
        have hmm : mem2 = mem := by
          apply List.ext_getElem?
          intro j
          have a1 : mem[j]? = _ := hj j
          have a2 : mem2[j]? = _ := hj2 j
          rw [a1, a2, hst, hsrc]
          by_cases hlt : j < n * 1
          · rw [if_pos hlt, if_pos hlt, hleft j (by omega)]
          · rw [if_neg hlt, if_neg hlt]
        rw [hcc, hmm]
  refine ⟨r, h1, by rw [h2, heq], fun i hi => ?_⟩
  refine ⟨xs[2 * i], List.getElem?_eq_getElem (by omega), ?_⟩
  rw [hj i, hst, if_pos (by omega), hsrc, List.getElem?_eq_getElem (by omega)]
  rfl

theorem C7_stereo_to_mono_ignores_right_witness :
    (SampleHandler.mk [7, 7, 7] 1).channels = 1 ∧
    ([100, 5, -20000, 6] : List Int).length = 2 * 2 ∧
    ([100, -9, -20000, 30000] : List Int).length = 2 * 2 ∧
    (∀ i, i < 2 →
      ([100, 5, -20000, 6] : List Int)[2 * i]? = ([100, -9, -20000, 30000] : List Int)[2 * i]?) ∧
    2 ≤ (SampleHandler.mk [7, 7, 7] 1).jsbuffer.length ∧
    ∃ r, (SampleHandler.mk [7, 7, 7] 1).AddSamples_s32 2 [100, 5, -20000, 6] = some r ∧
      (SampleHandler.mk [7, 7, 7] 1).AddSamples_s32 2 [100, -9, -20000, 30000] = some r ∧
      ∀ i, i < 2 → ∃ l, ([100, 5, -20000, 6] : List Int)[2 * i]? = some l ∧
        r.jsbuffer[i]? = some (amplifyClip l) :=
  ⟨rfl, rfl, rfl, by decide, by decide,
    C7_stereo_to_mono_ignores_right (SampleHandler.mk [7, 7, 7] 1) 2 [100, 5, -20000, 6]
      [100, -9, -20000, 30000] rfl rfl rfl (by decide) (by decide)⟩

/-- C8: stereo delivery with two output channels.  For every frame `i` of the
interleaved input `xs`, element `2 * i` of the array is the amplified and
clipped left sample and element `2 * i + 1` the amplified and clipped right
sample.  Each depends on its own channel only: for any other input `ys` of `n`
frames, an output element is the same as soon as the one input sample it
comes from is the same. -/
theorem C8_stereo_delivery_interleaves (self : SampleHandler) (n : Nat) (xs : List Int)
    (hc : self.channels = 2) (hx : xs.length = 2 * n)
    (hcap : 2 * n ≤ self.jsbuffer.length) :
    ∃ r, self.AddSamples_s32 n xs = some r ∧
      (∀ i, i < n → ∃ left right, xs[2 * i]? = some left ∧ xs[2 * i + 1]? = some right ∧
        r.jsbuffer[2 * i]? = some (amplifyClip left) ∧
        r.jsbuffer[2 * i + 1]? = some (amplifyClip right)) ∧
      ∀ ys : List Int, ys.length = 2 * n →
        ∃ r2, self.AddSamples_s32 n ys = some r2 ∧
          ∀ i, i < n →
            (xs[2 * i]? = ys[2 * i]? → r2.jsbuffer[2 * i]? = r.jsbuffer[2 * i]?) ∧
            (xs[2 * i + 1]? = ys[2 * i + 1]? →
              r2.jsbuffer[2 * i + 1]? = r.jsbuffer[2 * i + 1]?) := by
  have hst : self.stride = 2 := by
    unfold SampleHandler.stride; simp [hc]
  have hsrc : ∀ j, j / 2 * 2 + j % 2 = j := by intro j; omega
  obtain ⟨r, h1, _, _, hj⟩ := self.AddSamples_s32_spec n xs (by omega) (by rw [hst]; omega)
  have hjx : ∀ j, j < n * 2 → r.jsbuffer[j]? = (xs[j]?).map amplifyClip := by
    intro j hlt
    rw [hj j, hst, if_pos hlt, hsrc]
  refine ⟨r, h1, fun i hi => ?_, fun ys hy => ?_⟩
  · refine ⟨xs[2 * i], xs[2 * i + 1], List.getElem?_eq_getElem (by omega),
      List.getElem?_eq_getElem (by omega), ?_, ?_⟩
    · rw [hjx (2 * i) (by omega), List.getElem?_eq_getElem (by omega)]; rfl
    · rw [hjx (2 * i + 1) (by omega), List.getElem?_eq_getElem (by omega)]; rfl
  · obtain ⟨r2, h2, _, _, hj2⟩ :=
      self.AddSamples_s32_spec n ys (by omega) (by rw [hst]; omega)
    have hjy : ∀ j, j < n * 2 → r2.jsbuffer[j]? = (ys[j]?).map amplifyClip := by
      intro j hlt
      rw [hj2 j, hst, if_pos hlt, hsrc]
    refine ⟨r2, h2, fun i hi => ⟨fun h => ?_, fun h => ?_⟩⟩
    · rw [hjx (2 * i) (by omega), hjy (2 * i) (by omega), h]
    · rw [hjx (2 * i + 1) (by omega), hjy (2 * i + 1) (by omega), h]

theorem C8_stereo_delivery_interleaves_witness :
    (SampleHandler.mk [7, 7, 7, 7, 7] 2).channels = 2 ∧
    ([100, 5, -20000, 30000] : List Int).length = 2 * 2 ∧
    2 * 2 ≤ (SampleHandler.mk [7, 7, 7, 7, 7] 2).jsbuffer.length ∧
    ∃ r, (SampleHandler.mk [7, 7, 7, 7, 7] 2).AddSamples_s32 2 [100, 5, -20000, 30000] = some r ∧
      (∀ i, i < 2 → ∃ left right,
        ([100, 5, -20000, 30000] : List Int)[2 * i]? = some left ∧
        ([100, 5, -20000, 30000] : List Int)[2 * i + 1]? = some right ∧
        r.jsbuffer[2 * i]? = some (amplifyClip left) ∧
        r.jsbuffer[2 * i + 1]? = some (amplifyClip right)) ∧
      ∀ ys : List Int, ys.length = 2 * 2 →
        ∃ r2, (SampleHandler.mk [7, 7, 7, 7, 7] 2).AddSamples_s32 2 ys = some r2 ∧
          ∀ i, i < 2 →
            (([100, 5, -20000, 30000] : List Int)[2 * i]? = ys[2 * i]? →
              r2.jsbuffer[2 * i]? = r.jsbuffer[2 * i]?) ∧
            (([100, 5, -20000, 30000] : List Int)[2 * i + 1]? = ys[2 * i + 1]? →
              r2.jsbuffer[2 * i + 1]? = r.jsbuffer[2 * i + 1]?) :=
  ⟨rfl, rfl, by decide,
    C8_stereo_delivery_interleaves (SampleHandler.mk [7, 7, 7, 7, 7] 2) 2 [100, 5, -20000, 30000]
      rfl rfl (by decide)⟩

/-! ## Where `generate` writes (C9, C10) -/

/-- C9: a successful `generate(frameCount)` with one or two output channels
writes the elements `0 .. frameCount * channels - 1` of the array and no
other: each of these holds the amplified and clipped value of a delivered
sample, every element from `frameCount * channels` on is as before the call,
and the array keeps its length. -/
theorem C9_generate_writes_only_leading_range {σ : Type} (E : Handler σ) (self : OPL σ)
    (frameCount : Int) (hinv : self.Inv) (hch : self.channels = 1 ∨ self.channels = 2)
    (hE : E.DeliversExactly) (h2 : 2 ≤ frameCount) (h512 : frameCount ≤ 512) :
    ∃ s1, self.generate E frameCount = some (Except.ok (), s1) ∧
      s1.jsbuffer.length = self.jsbuffer.length ∧
      (∀ j : Nat, frameCount * self.channels ≤ (j : Int) →
        s1.jsbuffer[j]? = self.jsbuffer[j]?) ∧
      (∀ j : Nat, (j : Int) < frameCount * self.channels →
        ∃ b, (E.block self.dbopl frameCount.toNat).2.source self.mixer.stride j = some b ∧
          s1.jsbuffer[j]? = some (amplifyClip b)) := by
  obtain ⟨r, _, hg, _, hl, hj⟩ :=
    OPL.generate_spec E self frameCount hinv (by omega) hE h2 h512
  have hs := self.stride_eq hinv hch
  have hprod : ((frameCount.toNat * self.mixer.stride : Nat) : Int)
      = frameCount * self.channels := by
    rw [Nat.cast_mul, hs, Int.toNat_of_nonneg (by omega)]
  have hcap := self.capacity_ok hinv (by omega) frameCount h512
  refine ⟨_, hg, hl, fun j hge => ?_, fun j hlt => ?_⟩
  · show r.jsbuffer[j]? = self.mixer.jsbuffer[j]?
    rw [hj j, if_neg (by omega)]
  · have hval := hj j
    rw [if_pos (by omega)] at hval
    have hsome : r.jsbuffer[j]? = some r.jsbuffer[j] :=
      List.getElem?_eq_getElem (by omega)
    rw [hsome] at hval
    obtain ⟨b, hb1, hb2⟩ := Option.map_eq_some'.mp hval.symm
    exact ⟨b, hb1, by rw [hb2]; exact hsome⟩

theorem C9_generate_writes_only_leading_range_witness :
    (demoOPL 1 7).Inv ∧ ((demoOPL 1 7).channels = 1 ∨ (demoOPL 1 7).channels = 2) ∧
    (silentEngine true).DeliversExactly ∧ (2 : Int) ≤ 2 ∧ (2 : Int) ≤ 512 ∧
    ∃ s1, (demoOPL 1 7).generate (silentEngine true) 2 = some (Except.ok (), s1) ∧
      s1.jsbuffer.length = (demoOPL 1 7).jsbuffer.length ∧
      (∀ j : Nat, 2 * (demoOPL 1 7).channels ≤ (j : Int) →
        s1.jsbuffer[j]? = (demoOPL 1 7).jsbuffer[j]?) ∧
      (∀ j : Nat, (j : Int) < 2 * (demoOPL 1 7).channels →
        ∃ b, ((silentEngine true).block (demoOPL 1 7).dbopl (2 : Int).toNat).2.source
            (demoOPL 1 7).mixer.stride j = some b ∧
          s1.jsbuffer[j]? = some (amplifyClip b)) :=
  ⟨demoOPL_inv 1 7 (by decide), Or.inl rfl, silentEngine_delivers true, by decide, by decide,
    C9_generate_writes_only_leading_range (silentEngine true) (demoOPL 1 7) 2
      (demoOPL_inv 1 7 (by decide)) (Or.inl rfl) (silentEngine_delivers true)
      (by decide) (by decide)⟩

/-- C10: the first `frameCount * channels` array elements after a successful
`generate(frameCount)` do not depend on the array content before the call.
Two adapters that differ only in the content `mem2` of the array, run with
the same engine state and frame count, both succeed and agree on every one of
these elements. -/
theorem C10_written_range_independent_of_prior_content {σ : Type} (E : Handler σ)
    (self : OPL σ) (mem2 : List Int) (frameCount : Int) (hinv : self.Inv)
    (hch : self.channels = 1 ∨ self.channels = 2) (hE : E.DeliversExactly)
    (hlen : mem2.length = self.jsbuffer.length)
    (h2 : 2 ≤ frameCount) (h512 : frameCount ≤ 512) :
    ∃ s1 s2, self.generate E frameCount = some (Except.ok (), s1) ∧
      OPL.generate E { self with mixer := { self.mixer with jsbuffer := mem2 } } frameCount
        = some (Except.ok (), s2) ∧
      ∀ j : Nat, (j : Int) < frameCount * self.channels →
        s1.jsbuffer[j]? = s2.jsbuffer[j]? := by
  have hinv2 : OPL.Inv { self with mixer := { self.mixer with jsbuffer := mem2 } } := by
    refine ⟨hinv.1, hinv.2.1, ?_⟩
    show (mem2.length : Int) = _
    rw [hlen]; exact hinv.2.2
  obtain ⟨r, _, hg, _, _, hj⟩ :=
    OPL.generate_spec E self frameCount hinv (by omega) hE h2 h512
  obtain ⟨r2, _, hg2, _, _, hj2⟩ :=
    OPL.generate_spec E { self with mixer := { self.mixer with jsbuffer := mem2 } } frameCount
      hinv2 (by show 1 ≤ self.channels; omega) hE h2 h512
  have hs := self.stride_eq hinv hch
  have hprod : ((frameCount.toNat * self.mixer.stride : Nat) : Int)
      = frameCount * self.channels := by
    rw [Nat.cast_mul, hs, Int.toNat_of_nonneg (by omega)]
  refine ⟨_, _, hg, hg2, fun j hlt => ?_⟩
  have hlt2 : j < frameCount.toNat * self.mixer.stride := by omega
  have a1 : r.jsbuffer[j]? = _ := hj j
  have a2 : r2.jsbuffer[j]? = _ := hj2 j
  show r.jsbuffer[j]? = r2.jsbuffer[j]?
  rw [a1, a2, if_pos hlt2]
  exact (if_pos (show j < frameCount.toNat * self.mixer.stride from hlt2)).symm

theorem C10_written_range_independent_of_prior_content_witness :
    (demoOPL 2 7).Inv ∧ ((demoOPL 2 7).channels = 1 ∨ (demoOPL 2 7).channels = 2) ∧
    (silentEngine false).DeliversExactly ∧
    (demoOPL 2 (-3)).jsbuffer.length = (demoOPL 2 7).jsbuffer.length ∧
    (2 : Int) ≤ 64 ∧ (64 : Int) ≤ 512 ∧
    ∃ s1 s2, (demoOPL 2 7).generate (silentEngine false) 64 = some (Except.ok (), s1) ∧
      OPL.generate (silentEngine false)
          { demoOPL 2 7 with
            mixer := { (demoOPL 2 7).mixer with jsbuffer := (demoOPL 2 (-3)).jsbuffer } } 64
        = some (Except.ok (), s2) ∧
      ∀ j : Nat, (j : Int) < 64 * (demoOPL 2 7).channels →
        s1.jsbuffer[j]? = s2.jsbuffer[j]? :=
  ⟨demoOPL_inv 2 7 (by decide), Or.inr rfl, silentEngine_delivers false,
    by simp only [demoOPL, OPL.jsbuffer, List.length_replicate], by decide, by decide,
    C10_written_range_independent_of_prior_content (silentEngine false) (demoOPL 2 7)
      (demoOPL 2 (-3)).jsbuffer 64 (demoOPL_inv 2 7 (by decide)) (Or.inr rfl)
      (silentEngine_delivers false) (by simp only [demoOPL, OPL.jsbuffer, List.length_replicate])
      (by decide) (by decide)⟩

/-! ## The length of the view over the lifetime of the adapter (C11) -/

theorem OPL.generate_rejected {σ : Type} (E : Handler σ) (self : OPL σ) (n : Int)
    (h : n < 2 ∨ n > 512) : ∃ msg, self.generate E n = some (Except.error msg, self) := by
  unfold OPL.generate
  by_cases h512 : n > 512
  · exact ⟨errTooMany, by rw [if_pos h512]⟩
  · exact ⟨errTooFew, by rw [if_neg h512, if_pos (by omega)]⟩

theorem OPL.step_keeps {σ : Type} (E : Handler σ) (self : OPL σ) (c : HostCall)
    (hinv : self.Inv) (hch : 1 ≤ self.channels) (hE : E.DeliversExactly) :
    ∃ s1, self.step E c = some s1 ∧ s1.Inv ∧ s1.channels = self.channels ∧
      s1.getBuffer.size = self.getBuffer.size ∧
      s1.getBuffer.data.length = self.getBuffer.data.length := by
  cases c with
  | write reg val =>
    exact ⟨self.write E reg val, rfl, OPL.write_inv E self reg val hinv, rfl, rfl, rfl⟩
  | generate n =>
    by_cases hr : 2 ≤ n ∧ n ≤ 512
    · obtain ⟨r, _, hg, hc, hl, _⟩ := OPL.generate_spec E self n hinv hch hE hr.1 hr.2
      refine ⟨{ self with dbopl := (E.block self.dbopl n.toNat).1, mixer := r }, ?_, ?_,
        rfl, rfl, hl⟩
      · simp only [OPL.step, hg, Option.map_some']
      · refine ⟨hinv.1, ?_, ?_⟩
        · show r.channels = _
          rw [hc]; exact hinv.2.1
        · show (r.jsbuffer.length : Int) = _
          rw [hl]; exact hinv.2.2
    · obtain ⟨msg, hg⟩ := OPL.generate_rejected E self n (by omega)
      exact ⟨self, by simp only [OPL.step, hg, Option.map_some'], hinv, rfl, rfl, rfl⟩

theorem OPL.run_keeps {σ : Type} (E : Handler σ) (hE : E.DeliversExactly)
    (calls : List HostCall) :
    ∀ self : OPL σ, self.Inv → 1 ≤ self.channels →
      ∃ s1, OPL.run E self calls = some s1 ∧ s1.Inv ∧ s1.channels = self.channels ∧
        s1.getBuffer.size = self.getBuffer.size ∧
        s1.getBuffer.data.length = self.getBuffer.data.length := by
  induction calls with
  | nil =>
    intro self hinv _
    exact ⟨self, rfl, hinv, rfl, rfl, rfl⟩
  | cons c cs ih =>
    intro self hinv hch
    obtain ⟨s1, h1, hi1, hc1, hs1, hd1⟩ := OPL.step_keeps E self c hinv hch hE
    obtain ⟨s2, h2, hi2, hc2, hs2, hd2⟩ := ih s1 hi1 (by rw [hc1]; exact hch)
    refine ⟨s2, ?_, hi2, by rw [hc2, hc1], by rw [hs2, hs1], by rw [hd2, hd1]⟩
    simp only [OPL.run, h1, Option.some_bind, h2]

/-- C11: the length `getBuffer` reports is fixed by the construction.  Two
constructions that differ only in the requested buffer length report the same
length, and after any sequence of `write` and `generate` calls, accepted or
rejected, the adapter still reports the length it reported when constructed,
over an array of unchanged length. -/
theorem C11_view_length_fixed_at_construction {σ : Type} (E : Handler σ)
    (garbage : Nat → Int) (freq channels requested1 requested2 : Int)
    (calls : List HostCall) (hE : E.DeliversExactly)
    (h1 : 1 ≤ channels) (hmax : channels < 2097152) :
    ∃ s0 t0 s1, OPL.new E garbage freq channels requested1 = some s0 ∧
      OPL.new E garbage freq channels requested2 = some t0 ∧
      t0.getBuffer.size = s0.getBuffer.size ∧
      OPL.run E s0 calls = some s1 ∧
      s1.getBuffer.size = s0.getBuffer.size ∧
      s1.getBuffer.data.length = s0.getBuffer.data.length := by
  obtain ⟨s0, hs0⟩ : ∃ s0, OPL.new E garbage freq channels requested1 = some s0 :=
    ⟨_, OPL.new_eq_some E garbage freq channels requested1 (by omega) hmax⟩
  have ht0 := OPL.new_eq_some E garbage freq channels requested2 (by omega) hmax
  obtain ⟨hinv, hc⟩ := OPL.new_inv E garbage freq channels requested1 s0 hs0
  obtain ⟨s1, hr, _, _, hsz, hd⟩ := OPL.run_keeps E hE calls s0 hinv (by rw [hc]; exact h1)
  refine ⟨s0, _, s1, hs0, ht0, ?_, hr, hsz, hd⟩
  rw [OPL.new_eq_some E garbage freq channels requested1 (by omega) hmax] at hs0
  cases hs0
  rfl

theorem C11_view_length_fixed_at_construction_witness :
    (silentEngine true).DeliversExactly ∧ (1 : Int) ≤ 2 ∧ (2 : Int) < 2097152 ∧
    ∃ s0 t0 s1, OPL.new (silentEngine true) (fun _ => 0) 49716 2 1024 = some s0 ∧
      OPL.new (silentEngine true) (fun _ => 0) 49716 2 64 = some t0 ∧
      t0.getBuffer.size = s0.getBuffer.size ∧
      OPL.run (silentEngine true) s0
          [HostCall.write 0x20 0x01, HostCall.generate 64, HostCall.generate 513,
            HostCall.generate 2]
        = some s1 ∧
      s1.getBuffer.size = s0.getBuffer.size ∧
      s1.getBuffer.data.length = s0.getBuffer.data.length :=
  ⟨silentEngine_delivers true, by decide, by decide,
    C11_view_length_fixed_at_construction (silentEngine true) (fun _ => 0) 49716 2 1024 64
      [HostCall.write 0x20 0x01, HostCall.generate 64, HostCall.generate 513,
        HostCall.generate 2]
      (silentEngine_delivers true) (by decide) (by decide)⟩

/-! ## Register writes (C13) -/

/-- C13: `write(reg, val)` has a result for every pair of integers; the engine
state afterwards is that of one `WriteReg` with the very same `reg` and `val`,
and the sink with its array, the channel count and the view are as before. -/
theorem C13_write_is_a_passthrough {σ : Type} (E : Handler σ) (self : OPL σ) (reg val : Int) :
    (self.write E reg val).dbopl = E.WriteReg self.dbopl reg val ∧
    (self.write E reg val).mixer = self.mixer ∧
    (self.write E reg val).jsbuffer = self.jsbuffer ∧
    (self.write E reg val).lenBufferSamples = self.lenBufferSamples ∧
    (self.write E reg val).channels = self.channels ∧
    (self.write E reg val).getBuffer = self.getBuffer ∧
    self.step E (HostCall.write reg val)
      = some { self with dbopl := E.WriteReg self.dbopl reg val } :=
  ⟨rfl, rfl, rfl, rfl, rfl, rfl, rfl⟩

/-! ## The offsets the sinks assign to (C12) -/

theorem store_some_bound (mem mem1 : List Int) (out : Nat) (v : Int)
    (h : store mem out v = some mem1) : out < mem.length ∧ mem1.length = mem.length := by
  unfold store at h
  split_ifs at h with hlt
  cases h
  exact ⟨hlt, List.length_set _ _ _⟩

/-- When the mono loop completes, each of its assignments was inside the array. -/
theorem m32_stores_in_bounds (channels : Nat) (buffer : List Int) :
    ∀ (k i out : Nat) (mem mem1 : List Int),
      AddSamples_m32.loop channels buffer k i out mem = some mem1 →
      ∀ o ∈ AddSamples_m32.stores channels k out, o < mem.length := by
  intro k
  induction k with
  | zero =>
    intro i out mem mem1 _ o ho
    simp [AddSamples_m32.stores] at ho
  | succ k ih =>
    intro i out mem mem1 h o ho
    simp only [AddSamples_m32.loop] at h
    obtain ⟨b, _, h⟩ := Option.bind_eq_some.mp h
    obtain ⟨m1, hm1, h⟩ := Option.bind_eq_some.mp h
    obtain ⟨hb1, hl1⟩ := store_some_bound _ _ _ _ hm1
    simp only [AddSamples_m32.stores] at ho
    by_cases hc : channels = 2
    · rw [if_pos hc] at h ho
      obtain ⟨m2, hm2, h⟩ := Option.bind_eq_some.mp h
      obtain ⟨hb2, hl2⟩ := store_some_bound _ _ _ _ hm2
      have hrest := ih (i + 1) (out + 2) m2 mem1 h
      rcases List.mem_cons.mp ho with rfl | ho
      · exact hb1
      · rcases List.mem_cons.mp ho with rfl | ho
        · omega
        · have := hrest o ho
          omega
    · rw [if_neg hc] at h ho
      have hrest := ih (i + 1) (out + 1) m1 mem1 h
      rcases List.mem_cons.mp ho with rfl | ho
      · exact hb1
      · have := hrest o ho
        omega

/-- When the stereo loop completes, each of its assignments was inside the array. -/
theorem s32_stores_in_bounds (channels : Nat) (buffer : List Int) :
    ∀ (k i out : Nat) (mem mem1 : List Int),
      AddSamples_s32.loop channels buffer k i out mem = some mem1 →
      ∀ o ∈ AddSamples_s32.stores channels k out, o < mem.length := by
  intro k
  induction k with
  | zero =>
    intro i out mem mem1 _ o ho
    simp [AddSamples_s32.stores] at ho
  | succ k ih =>
    intro i out mem mem1 h o ho
    simp only [AddSamples_s32.loop] at h
    obtain ⟨b, _, h⟩ := Option.bind_eq_some.mp h
    obtain ⟨m1, hm1, h⟩ := Option.bind_eq_some.mp h
    obtain ⟨hb1, hl1⟩ := store_some_bound _ _ _ _ hm1
    simp only [AddSamples_s32.stores] at ho
    by_cases hc : channels = 2
    · rw [if_pos hc] at h ho
      obtain ⟨b1, _, h⟩ := Option.bind_eq_some.mp h
      obtain ⟨m2, hm2, h⟩ := Option.bind_eq_some.mp h
      obtain ⟨hb2, hl2⟩ := store_some_bound _ _ _ _ hm2
      have hrest := ih (i + 1) (out + 2) m2 mem1 h
      rcases List.mem_cons.mp ho with rfl | ho
      · exact hb1
      · rcases List.mem_cons.mp ho with rfl | ho
        · omega
        · have := hrest o ho
          omega
    · rw [if_neg hc] at h ho
      have hrest := ih (i + 1) (out + 1) m1 mem1 h
      rcases List.mem_cons.mp ho with rfl | ho
      · exact hb1
      · have := hrest o ho
        omega

theorem m32_stores_eq (channels : Nat) :
    ∀ (k out : Nat), AddSamples_m32.stores channels k out
      = List.range' out (k * (if channels = 2 then 2 else 1)) := by
  intro k
  induction k with
  | zero => intro out; simp [AddSamples_m32.stores]
  | succ k ih =>
    intro out
    simp only [AddSamples_m32.stores]
    by_cases hc : channels = 2
    · rw [if_pos hc, if_pos hc, ih, if_pos hc, show (k + 1) * 2 = k * 2 + 1 + 1 by omega,
        List.range'_succ, List.range'_succ]
    · rw [if_neg hc, if_neg hc, ih, if_neg hc, show (k + 1) * 1 = k * 1 + 1 by omega,
        List.range'_succ]

theorem s32_stores_eq (channels : Nat) :
    ∀ (k out : Nat), AddSamples_s32.stores channels k out
      = List.range' out (k * (if channels = 2 then 2 else 1)) := by
  intro k
  induction k with
  | zero => intro out; simp [AddSamples_s32.stores]
  | succ k ih =>
    intro out
    simp only [AddSamples_s32.stores]
    by_cases hc : channels = 2
    · rw [if_pos hc, if_pos hc, ih, if_pos hc, show (k + 1) * 2 = k * 2 + 1 + 1 by omega,
        List.range'_succ, List.range'_succ]
    · rw [if_neg hc, if_neg hc, ih, if_neg hc, show (k + 1) * 1 = k * 1 + 1 by omega,
        List.range'_succ]

theorem m32_some_of_sink {self r : SampleHandler} {n : Nat} {buffer : List Int}
    (h : self.AddSamples_m32 n buffer = some r) :
    ∃ mem1, AddSamples_m32.loop self.channels buffer n 0 0 self.jsbuffer = some mem1 := by
  unfold SampleHandler.AddSamples_m32 at h
  obtain ⟨mem1, h1, _⟩ := Option.map_eq_some'.mp h
  exact ⟨mem1, h1⟩

theorem s32_some_of_sink {self r : SampleHandler} {n : Nat} {buffer : List Int}
    (h : self.AddSamples_s32 n buffer = some r) :
    ∃ mem1, AddSamples_s32.loop self.channels buffer n 0 0 self.jsbuffer = some mem1 := by
  unfold SampleHandler.AddSamples_s32 at h
  obtain ⟨mem1, h1, _⟩ := Option.map_eq_some'.mp h
  exact ⟨mem1, h1⟩

/-- C12: for one or two output channels and a frame count of at most 512 (the
accepted counts 2 to 512 among them), both sink methods complete on a delivery
of that many frames, every offset they assign to lies below the length of the
array, which is the allocated `BUFFER_SIZE_SAMPLES * channels`, and neither
makes more than 1024 assignments. -/
theorem C12_stores_below_capacity {σ : Type} (self : OPL σ) (n : Nat)
    (mono stereo : List Int) (hinv : self.Inv)
    (hch : self.channels = 1 ∨ self.channels = 2) (h512 : n ≤ 512)
    (hm : mono.length = n) (hs : stereo.length = 2 * n) :
    (∃ r, self.mixer.AddSamples_m32 n mono = some r) ∧
    (∃ r, self.mixer.AddSamples_s32 n stereo = some r) ∧
    (self.jsbuffer.length : Int) = BUFFER_SIZE_SAMPLES * self.channels ∧
    (∀ o ∈ AddSamples_m32.stores self.mixer.channels n 0, o < self.jsbuffer.length) ∧
    (∀ o ∈ AddSamples_s32.stores self.mixer.channels n 0, o < self.jsbuffer.length) ∧
    (AddSamples_m32.stores self.mixer.channels n 0).length ≤ 512 * 2 ∧
    (AddSamples_s32.stores self.mixer.channels n 0).length ≤ 512 * 2 := by
  have hcap := self.capacity_ok hinv (by omega) (n : Int) (by omega)
  rw [Int.toNat_ofNat] at hcap
  obtain ⟨r1, hr1, _⟩ := self.mixer.AddSamples_m32_spec n mono (by omega) hcap
  obtain ⟨r2, hr2, _⟩ := self.mixer.AddSamples_s32_spec n stereo (by omega) hcap
  obtain ⟨m1, hl1⟩ := m32_some_of_sink hr1
  obtain ⟨m2, hl2⟩ := s32_some_of_sink hr2
  refine ⟨⟨r1, hr1⟩, ⟨r2, hr2⟩, hinv.2.2,
    m32_stores_in_bounds _ _ _ _ _ _ _ hl1, s32_stores_in_bounds _ _ _ _ _ _ _ hl2, ?_, ?_⟩
  · rw [m32_stores_eq, List.length_range']
    split_ifs <;> omega
  · rw [s32_stores_eq, List.length_range']
    split_ifs <;> omega

theorem C12_stores_below_capacity_witness :
    (demoOPL 2 7).Inv ∧ ((demoOPL 2 7).channels = 1 ∨ (demoOPL 2 7).channels = 2) ∧
    3 ≤ 512 ∧ ([100, -20000, 5] : List Int).length = 3 ∧
    ([100, 1, -20000, 2, 5, 3] : List Int).length = 2 * 3 ∧
    ((∃ r, (demoOPL 2 7).mixer.AddSamples_m32 3 [100, -20000, 5] = some r) ∧
    (∃ r, (demoOPL 2 7).mixer.AddSamples_s32 3 [100, 1, -20000, 2, 5, 3] = some r) ∧
    ((demoOPL 2 7).jsbuffer.length : Int) = BUFFER_SIZE_SAMPLES * (demoOPL 2 7).channels ∧
    (∀ o ∈ AddSamples_m32.stores (demoOPL 2 7).mixer.channels 3 0,
      o < (demoOPL 2 7).jsbuffer.length) ∧
    (∀ o ∈ AddSamples_s32.stores (demoOPL 2 7).mixer.channels 3 0,
      o < (demoOPL 2 7).jsbuffer.length) ∧
    (AddSamples_m32.stores (demoOPL 2 7).mixer.channels 3 0).length ≤ 512 * 2 ∧
    (AddSamples_s32.stores (demoOPL 2 7).mixer.channels 3 0).length ≤ 512 * 2) :=
  ⟨demoOPL_inv 2 7 (by decide), Or.inr rfl, by decide, rfl, rfl,
    C12_stores_below_capacity (demoOPL 2 7) 3 [100, -20000, 5] [100, 1, -20000, 2, 5, 3]
      (demoOPL_inv 2 7 (by decide)) (Or.inr rfl) (by decide) rfl rfl⟩

/-! ## The value computed from one accumulator sample (C14, C15, C17) -/

theorem amplifyClip_eq (a : Int) :
    amplifyClip a =
      if (2 * a + 2147483648) % 4294967296 - 2147483648 > 32767 then 32767
      else if (2 * a + 2147483648) % 4294967296 - 2147483648 < -32768 then -32768
      else (2 * a + 2147483648) % 4294967296 - 2147483648 := by
  unfold amplifyClip
  rw [CLIP_eq, shl32_one]

theorem amplifyClip_of_safe (a : Int) (hlo : -2 ^ 30 ≤ a) (hhi : a < 2 ^ 30) :
    amplifyClip a = saturate16 (2 * a) := by
  rw [amplifyClip_eq]
  unfold saturate16
  norm_num at hlo hhi
  split_ifs <;> omega

theorem amplifyClip_neg_of_high (a : Int) (hlo : 2 ^ 30 ≤ a) (hhi : a ≤ 2 ^ 31 - 1) :
    amplifyClip a < 0 := by
  rw [amplifyClip_eq]
  norm_num at hlo hhi
  split_ifs <;> omega

theorem amplifyClip_nonneg_of_low (a : Int) (hlo : -2 ^ 31 ≤ a) (hhi : a < -2 ^ 30) :
    0 ≤ amplifyClip a := by
  rw [amplifyClip_eq]
  norm_num at hlo hhi
  split_ifs <;> omega

theorem amplifyClip_even_or_max (a : Int) : amplifyClip a % 2 = 0 ∨ amplifyClip a = 32767 := by
  rw [amplifyClip_eq]
  split_ifs <;> omega

/-- Either sink method, called with a delivery of `n` frames on an array that
is long enough, completes, keeps the length of the array, and leaves at every
position of the written range the value computed from the input sample that
feeds this position. -/
theorem SampleHandler.deliver_spec (self : SampleHandler) (n : Nat) (d : SinkCall)
    (hd : d.HasFrames n) (hcap : n * self.stride ≤ self.jsbuffer.length) :
    ∃ r, self.deliver n d = some r ∧ r.jsbuffer.length = self.jsbuffer.length ∧
      ∀ j, j < n * self.stride →
        ∃ a, d.source self.stride j = some a ∧ r.jsbuffer[j]? = some (amplifyClip a) := by
  have key : ∀ (r : SampleHandler) (src : Nat → Option Int),
      r.jsbuffer.length = self.jsbuffer.length →
      (∀ j, r.jsbuffer[j]? =
        if j < n * self.stride then (src j).map amplifyClip else self.jsbuffer[j]?) →
      ∀ j, j < n * self.stride →
        ∃ a, src j = some a ∧ r.jsbuffer[j]? = some (amplifyClip a) := by
    intro r src hl hj j hlt
    have hval := hj j
    rw [if_pos hlt] at hval
    have hsome : r.jsbuffer[j]? = some r.jsbuffer[j] :=
      List.getElem?_eq_getElem (by omega)
    rw [hsome] at hval
    obtain ⟨b, hb1, hb2⟩ := Option.map_eq_some'.mp hval.symm
    exact ⟨b, hb1, by rw [hb2]; exact hsome⟩
  cases d with
  | m32 buffer =>
    have hlen : buffer.length = n := hd
    obtain ⟨r, h1, _, h3, h4⟩ := self.AddSamples_m32_spec n buffer (by omega) hcap
    exact ⟨r, h1, h3, key r _ h3 h4⟩
  | s32 buffer =>
    have hlen : buffer.length = 2 * n := hd
    obtain ⟨r, h1, _, h3, h4⟩ := self.AddSamples_s32_spec n buffer (by omega) hcap
    exact ⟨r, h1, h3, key r _ h3 h4⟩

/-- C14: when the accumulator sample `a` that feeds position `j` of a delivery
(mono or stereo) satisfies `-2^30 ≤ a < 2^30`, the sink method completes and
the element written at `j` is the clamp of `2 * a` to `[-32768, 32767]`: it is
`32767` exactly when `a ≥ 16384`, `-32768` exactly when `a ≤ -16384`, and
`2 * a` in between. -/
theorem C14_safe_range_is_exact_clamp (self : SampleHandler) (n : Nat) (d : SinkCall)
    (j : Nat) (a : Int) (hd : d.HasFrames n) (hcap : n * self.stride ≤ self.jsbuffer.length)
    (hj : j < n * self.stride) (hsrc : d.source self.stride j = some a)
    (hlo : -2 ^ 30 ≤ a) (hhi : a < 2 ^ 30) :
    ∃ r v, self.deliver n d = some r ∧ r.jsbuffer[j]? = some v ∧ v = amplifyClip a ∧
      v = saturate16 (2 * a) ∧
      (v = 32767 ↔ 16384 ≤ a) ∧ (v = -32768 ↔ a ≤ -16384) ∧
      (-16384 < a ∧ a < 16384 → v = 2 * a) := by
  obtain ⟨r, h1, _, h3⟩ := self.deliver_spec n d hd hcap
  obtain ⟨b, hb1, hb2⟩ := h3 j hj
  rw [hsrc] at hb1
  cases hb1
  have hs := amplifyClip_of_safe a hlo hhi
  refine ⟨r, amplifyClip a, h1, hb2, rfl, hs, ?_, ?_, ?_⟩ <;> rw [hs] <;> unfold saturate16
  · omega
  · omega
  · intro h; omega

theorem C14_safe_range_is_exact_clamp_witness :
    (SinkCall.s32 [16384, -16384, 16383, -5]).HasFrames 2 ∧
    2 * (SampleHandler.mk [7, 7, 7, 7, 7] 2).stride
      ≤ (SampleHandler.mk [7, 7, 7, 7, 7] 2).jsbuffer.length ∧
    1 < 2 * (SampleHandler.mk [7, 7, 7, 7, 7] 2).stride ∧
    (SinkCall.s32 [16384, -16384, 16383, -5]).source (SampleHandler.mk [7, 7, 7, 7, 7] 2).stride 1
      = some (-16384) ∧
    (-2 ^ 30 ≤ (-16384 : Int)) ∧ ((-16384 : Int) < 2 ^ 30) ∧
    ∃ r v, (SampleHandler.mk [7, 7, 7, 7, 7] 2).deliver 2 (SinkCall.s32 [16384, -16384, 16383, -5])
        = some r ∧
      r.jsbuffer[1]? = some v ∧ v = amplifyClip (-16384) ∧
      v = saturate16 (2 * -16384) ∧
      (v = 32767 ↔ 16384 ≤ (-16384 : Int)) ∧ (v = -32768 ↔ (-16384 : Int) ≤ -16384) ∧
      (-16384 < (-16384 : Int) ∧ (-16384 : Int) < 16384 → v = 2 * -16384) :=
  ⟨by decide, by decide, by decide, by decide, by decide, by decide,
    C14_safe_range_is_exact_clamp (SampleHandler.mk [7, 7, 7, 7, 7] 2) 2
      (SinkCall.s32 [16384, -16384, 16383, -5]) 1 (-16384)
      (by decide) (by decide) (by decide) (by decide) (by decide) (by decide)⟩

/-- C15: with the shift evaluated in 32-bit two's complement, the sign of the
written element is inverted outside the safe range.  When the accumulator
sample `a` that feeds position `j` of a delivery (mono or stereo) satisfies
`2^30 ≤ a ≤ 2^31 - 1`, the element written at `j` is strictly negative; when
`-2^31 ≤ a < -2^30`, it is non-negative. -/
theorem C15_sign_inverts_outside_safe_range (self : SampleHandler) (n : Nat) (d : SinkCall)
    (j : Nat) (a : Int) (hd : d.HasFrames n) (hcap : n * self.stride ≤ self.jsbuffer.length)
    (hj : j < n * self.stride) (hsrc : d.source self.stride j = some a) :
    ∃ r v, self.deliver n d = some r ∧ r.jsbuffer[j]? = some v ∧ v = amplifyClip a ∧
      (2 ^ 30 ≤ a ∧ a ≤ 2 ^ 31 - 1 → v < 0) ∧
      (-2 ^ 31 ≤ a ∧ a < -2 ^ 30 → 0 ≤ v) := by
  obtain ⟨r, h1, _, h3⟩ := self.deliver_spec n d hd hcap
  obtain ⟨b, hb1, hb2⟩ := h3 j hj
  rw [hsrc] at hb1
  cases hb1
  exact ⟨r, amplifyClip a, h1, hb2, rfl,
    fun h => amplifyClip_neg_of_high a h.1 h.2,
    fun h => amplifyClip_nonneg_of_low a h.1 h.2⟩

theorem C15_sign_inverts_outside_safe_range_witness :
    (SinkCall.m32 [1073741824, -1073741825]).HasFrames 2 ∧
    2 * (SampleHandler.mk [7, 7, 7] 1).stride ≤ (SampleHandler.mk [7, 7, 7] 1).jsbuffer.length ∧
    0 < 2 * (SampleHandler.mk [7, 7, 7] 1).stride ∧
    (SinkCall.m32 [1073741824, -1073741825]).source (SampleHandler.mk [7, 7, 7] 1).stride 0
      = some 1073741824 ∧
    ∃ r v, (SampleHandler.mk [7, 7, 7] 1).deliver 2 (SinkCall.m32 [1073741824, -1073741825])
        = some r ∧
      r.jsbuffer[0]? = some v ∧ v = amplifyClip 1073741824 ∧
      (2 ^ 30 ≤ (1073741824 : Int) ∧ (1073741824 : Int) ≤ 2 ^ 31 - 1 → v < 0) ∧
      (-2 ^ 31 ≤ (1073741824 : Int) ∧ (1073741824 : Int) < -2 ^ 30 → 0 ≤ v) :=
  ⟨by decide, by decide, by decide, by decide,
    C15_sign_inverts_outside_safe_range (SampleHandler.mk [7, 7, 7] 1) 2
      (SinkCall.m32 [1073741824, -1073741825]) 0 1073741824
      (by decide) (by decide) (by decide) (by decide)⟩

/-- C17: whatever the accumulator samples of a delivery (mono or stereo), every
element of the written range is an even number or is `32767`. -/
theorem C17_written_samples_even_or_max (self : SampleHandler) (n : Nat) (d : SinkCall)
    (hd : d.HasFrames n) (hcap : n * self.stride ≤ self.jsbuffer.length) :
    ∃ r, self.deliver n d = some r ∧
      ∀ j, j < n * self.stride → ∃ v, r.jsbuffer[j]? = some v ∧ (v % 2 = 0 ∨ v = 32767) := by
  obtain ⟨r, h1, _, h3⟩ := self.deliver_spec n d hd hcap
  refine ⟨r, h1, fun j hj => ?_⟩
  obtain ⟨b, _, hb2⟩ := h3 j hj
  exact ⟨amplifyClip b, hb2, amplifyClip_even_or_max b⟩

theorem C17_written_samples_even_or_max_witness :
    (SinkCall.s32 [16384, 3, 2147483647, -7]).HasFrames 2 ∧
    2 * (SampleHandler.mk [7, 7, 7, 7, 7] 2).stride
      ≤ (SampleHandler.mk [7, 7, 7, 7, 7] 2).jsbuffer.length ∧
    ∃ r, (SampleHandler.mk [7, 7, 7, 7, 7] 2).deliver 2 (SinkCall.s32 [16384, 3, 2147483647, -7])
        = some r ∧
      ∀ j, j < 2 * (SampleHandler.mk [7, 7, 7, 7, 7] 2).stride →
        ∃ v, r.jsbuffer[j]? = some v ∧ (v % 2 = 0 ∨ v = 32767) :=
  ⟨by decide, by decide,
    C17_written_samples_even_or_max (SampleHandler.mk [7, 7, 7, 7, 7] 2) 2
      (SinkCall.s32 [16384, 3, 2147483647, -7]) (by decide) (by decide)⟩

/-! ## Agreement of the two sink methods (C16) -/

theorem interleaveSelf_length (xs : List Int) : (interleaveSelf xs).length = 2 * xs.length := by
  induction xs with
  | nil => rfl
  | cons x xs ih => simp only [interleaveSelf, List.length_cons, ih]; omega

theorem interleaveSelf_entry (xs : List Int) :
    ∀ j, (interleaveSelf xs)[j]? = xs[j / 2]? := by
  induction xs with
  | nil => intro j; simp [interleaveSelf]
  | cons x xs ih =>
    intro j
    match j with
    | 0 => simp [interleaveSelf]
    | 1 => simp [interleaveSelf]
    | j + 2 =>
      have : (j + 2) / 2 = j / 2 + 1 := by omega
      simp only [interleaveSelf, List.getElem?_cons_succ, this, ih]

theorem leftSamples_spec (n : Nat) :
    ∀ ys : List Int, ys.length = 2 * n →
      (leftSamples ys).length = n ∧ ∀ i, (leftSamples ys)[i]? = ys[2 * i]? := by
  induction n with
  | zero =>
    intro ys h
    have : ys = [] := List.length_eq_zero.mp (by omega)
    subst this
    exact ⟨rfl, fun i => by simp [leftSamples]⟩
  | succ n ih =>
    intro ys h
    match ys, h with
    | l :: r :: rest, h =>
      obtain ⟨h1, h2⟩ := ih rest (by simp only [List.length_cons] at h; omega)
      refine ⟨by simp only [leftSamples, List.length_cons, h1], fun i => ?_⟩
      match i with
      | 0 => simp [leftSamples]
      | i + 1 =>
        have : 2 * (i + 1) = 2 * i + 1 + 1 := by omega
        simp only [leftSamples, List.getElem?_cons_succ, this, h2]

theorem SampleHandler.eq_of_entries (r1 r2 : SampleHandler) (hc : r1.channels = r2.channels)
    (hj : ∀ j : Nat, r1.jsbuffer[j]? = r2.jsbuffer[j]?) : r1 = r2 := by
  cases r1 with
  | mk m1 c1 =>
    cases r2 with
    | mk m2 c2 =>
      have h1 : c1 = c2 := hc
      have h2 : m1 = m2 := by
        apply List.ext_getElem?
        intro j
        exact hj j
      rw [h1, h2]

/-- C16: the two sink methods agree on equivalent inputs.  A sink with two
output channels ends in the same state after a mono delivery of `xs` and after
a stereo delivery of `xs` interleaved with itself; a sink with one output
channel ends in the same state after a stereo delivery of `ys` and after a mono
delivery of the left samples of `ys`. -/
theorem C16_sink_methods_agree (two one : SampleHandler) (xs ys : List Int) (n : Nat)
    (h2 : two.channels = 2) (hcap2 : 2 * xs.length ≤ two.jsbuffer.length)
    (h1 : one.channels = 1) (hy : ys.length = 2 * n) (hcap1 : n ≤ one.jsbuffer.length) :
    (∃ r, two.AddSamples_m32 xs.length xs = some r ∧
      two.AddSamples_s32 xs.length (interleaveSelf xs) = some r) ∧
    (∃ r, one.AddSamples_s32 n ys = some r ∧
      one.AddSamples_m32 n (leftSamples ys) = some r) := by
  have hs2 : two.stride = 2 := by unfold SampleHandler.stride; simp [h2]
  have hs1 : one.stride = 1 := by unfold SampleHandler.stride; simp [h1]
  constructor
  · obtain ⟨r, hr, hc, _, hj⟩ :=
      two.AddSamples_m32_spec xs.length xs le_rfl (by rw [hs2]; omega)
    obtain ⟨r', hr', hc', _, hj'⟩ :=
      two.AddSamples_s32_spec xs.length (interleaveSelf xs)
        (by rw [interleaveSelf_length]) (by rw [hs2]; omega)
    have : r' = r := by
      apply SampleHandler.eq_of_entries _ _ (by rw [hc, hc'])
      intro j
      rw [hj j, hj' j, hs2, interleaveSelf_entry,
        show (j / 2 * 2 + j % 2) / 2 = j / 2 by omega]
    exact ⟨r, hr, by rw [hr', this]⟩
  · obtain ⟨hl, hg⟩ := leftSamples_spec n ys hy
    obtain ⟨r, hr, hc, _, hj⟩ :=
      one.AddSamples_s32_spec n ys (by omega) (by rw [hs1]; omega)
    obtain ⟨r', hr', hc', _, hj'⟩ :=
      one.AddSamples_m32_spec n (leftSamples ys) (by omega) (by rw [hs1]; omega)
    have : r' = r := by
      apply SampleHandler.eq_of_entries _ _ (by rw [hc, hc'])
      intro j
      rw [hj j, hj' j, hs1, hg, show 2 * (j / 1) = j / 1 * 2 + j % 1 by omega]
    exact ⟨r, hr, by rw [hr', this]⟩

theorem C16_sink_methods_agree_witness :
    (SampleHandler.mk [7, 7, 7, 7, 7] 2).channels = 2 ∧
    2 * ([100, -20000] : List Int).length ≤ (SampleHandler.mk [7, 7, 7, 7, 7] 2).jsbuffer.length ∧
    (SampleHandler.mk [7, 7, 7] 1).channels = 1 ∧
    ([100, 5, -20000, 6] : List Int).length = 2 * 2 ∧
    2 ≤ (SampleHandler.mk [7, 7, 7] 1).jsbuffer.length ∧
    ((∃ r, (SampleHandler.mk [7, 7, 7, 7, 7] 2).AddSamples_m32 ([100, -20000] : List Int).length
          [100, -20000] = some r ∧
      (SampleHandler.mk [7, 7, 7, 7, 7] 2).AddSamples_s32 ([100, -20000] : List Int).length
          (interleaveSelf [100, -20000]) = some r) ∧
    (∃ r, (SampleHandler.mk [7, 7, 7] 1).AddSamples_s32 2 [100, 5, -20000, 6] = some r ∧
      (SampleHandler.mk [7, 7, 7] 1).AddSamples_m32 2 (leftSamples [100, 5, -20000, 6])
        = some r)) :=
  ⟨rfl, by decide, rfl, rfl, by decide,
    C16_sink_methods_agree (SampleHandler.mk [7, 7, 7, 7, 7] 2) (SampleHandler.mk [7, 7, 7] 1)
      [100, -20000] [100, 5, -20000, 6] 2 rfl (by decide) rfl rfl (by decide)⟩

/-! ## Channel counts other than one and two (C18) -/

theorem toUInt8_cast (c : Int) : ((toUInt8 c : Nat) : Int) = c % 256 := by
  unfold toUInt8
  exact Int.toNat_of_nonneg (Int.emod_nonneg c (by decide))

theorem OPL.new_sink_channels {σ : Type} (E : Handler σ) (garbage : Nat → Int)
    (freq c requested : Int) :
    (OPL.new E garbage freq c requested).map (fun s0 => s0.mixer.channels)
      = if 0 ≤ c ∧ c < 2097152 then some (toUInt8 c) else none := by
  unfold OPL.new BUFFER_SIZE_SAMPLES
  by_cases h : 0 ≤ c ∧ c < 2097152
  · rw [if_pos h, if_pos (by constructor <;> omega)]
    rfl
  · rw [if_neg h, if_neg (by intro h2; apply h; constructor <;> omega)]
    rfl

/-- C18: the constructor does not validate the channel count `c`; whenever it
constructs the adapter, the sink holds `c` narrowed to 8 bits, that is
`c mod 256`, and the layout follows from that value alone.  For every integer
`c`, a sink holding `c` narrowed to 8 bits makes, on a delivery of `n` frames,
exactly `n` assignments (offsets `0 .. n - 1`) when `c mod 256 ≠ 2` and exactly
`2 * n` (offsets `0 .. 2 * n - 1`) when `c mod 256 = 2`.  On an array that holds
that many elements both methods complete; when `c mod 256 ≠ 2` element `i` is
the value computed from mono sample `i`, respectively from the left sample of
frame `i`, and when `c mod 256 = 2` elements `2 * i` and `2 * i + 1` are the
values computed from mono sample `i` twice, respectively from the left and the
right sample of frame `i`; the array keeps its length and every later element
is as before. -/
theorem C18_layout_follows_truncated_count {σ : Type} (E : Handler σ) (garbage : Nat → Int)
    (freq c requested : Int) (mem : List Int) (n : Nat) (mono stereo : List Int)
    (hm : mono.length = n) (hs : stereo.length = 2 * n)
    (hcap : (if c % 256 = 2 then 2 * n else n) ≤ mem.length) :
    (OPL.new E garbage freq c requested).map (fun s0 => s0.mixer.channels)
      = (if 0 ≤ c ∧ c < 2097152 then some (toUInt8 c) else none) ∧
    ((toUInt8 c : Nat) : Int) = c % 256 ∧
    AddSamples_m32.stores (toUInt8 c) n 0 = List.range (if c % 256 = 2 then 2 * n else n) ∧
    AddSamples_s32.stores (toUInt8 c) n 0 = List.range (if c % 256 = 2 then 2 * n else n) ∧
    ∃ r1 r2,
      (SampleHandler.mk mem (toUInt8 c)).AddSamples_m32 n mono = some r1 ∧
      (SampleHandler.mk mem (toUInt8 c)).AddSamples_s32 n stereo = some r2 ∧
      r1.jsbuffer.length = mem.length ∧ r2.jsbuffer.length = mem.length ∧
      (c % 256 ≠ 2 → ∀ i, i < n →
        ∃ a left, mono[i]? = some a ∧ stereo[2 * i]? = some left ∧
          r1.jsbuffer[i]? = some (amplifyClip a) ∧
          r2.jsbuffer[i]? = some (amplifyClip left)) ∧
      (c % 256 = 2 → ∀ i, i < n →
        ∃ a left right, mono[i]? = some a ∧ stereo[2 * i]? = some left ∧
          stereo[2 * i + 1]? = some right ∧
          r1.jsbuffer[2 * i]? = some (amplifyClip a) ∧
          r1.jsbuffer[2 * i + 1]? = some (amplifyClip a) ∧
          r2.jsbuffer[2 * i]? = some (amplifyClip left) ∧
          r2.jsbuffer[2 * i + 1]? = some (amplifyClip right)) ∧
      ∀ j : Nat, (if c % 256 = 2 then 2 * n else n) ≤ j →
        r1.jsbuffer[j]? = mem[j]? ∧ r2.jsbuffer[j]? = mem[j]? := by
  have hcast := toUInt8_cast c
  have hstride : (SampleHandler.mk mem (toUInt8 c)).stride
      = if c % 256 = 2 then 2 else 1 := by
    show (if toUInt8 c = 2 then 2 else 1) = _
    by_cases h : toUInt8 c = 2
    · rw [if_pos h, if_pos (by omega)]
    · rw [if_neg h, if_neg (by omega)]
  have hcount : n * (if toUInt8 c = 2 then 2 else 1)
      = if c % 256 = 2 then 2 * n else n := by
    by_cases h : toUInt8 c = 2
    · rw [if_pos h, if_pos (by omega)]; omega
    · rw [if_neg h, if_neg (by omega)]; omega
  have hcap2 : n * (SampleHandler.mk mem (toUInt8 c)).stride
      ≤ (SampleHandler.mk mem (toUInt8 c)).jsbuffer.length := by
    show n * (if toUInt8 c = 2 then 2 else 1) ≤ mem.length
    rw [hcount]; exact hcap
  obtain ⟨r1, hr1, _, hl1, hj1⟩ :=
    (SampleHandler.mk mem (toUInt8 c)).AddSamples_m32_spec n mono (by omega) hcap2
  obtain ⟨r2, hr2, _, hl2, hj2⟩ :=
    (SampleHandler.mk mem (toUInt8 c)).AddSamples_s32_spec n stereo (by omega) hcap2
  rw [hstride] at hj1 hj2
  refine ⟨OPL.new_sink_channels E garbage freq c requested, hcast, ?_, ?_,
    r1, r2, hr1, hr2, hl1, hl2, fun hne i hi => ?_, fun heq i hi => ?_, fun j hj => ⟨?_, ?_⟩⟩
  · rw [m32_stores_eq, hcount, List.range_eq_range']
  · rw [s32_stores_eq, hcount, List.range_eq_range']
  · rw [if_neg hne] at hj1 hj2
    refine ⟨mono[i], stereo[2 * i], List.getElem?_eq_getElem (by omega),
      List.getElem?_eq_getElem (by omega), ?_, ?_⟩
    · rw [hj1 i, if_pos (by omega), Nat.div_one, List.getElem?_eq_getElem (by omega)]
      rfl
    · rw [hj2 i, if_pos (by omega), show i / 1 * 2 + i % 1 = 2 * i by omega,
        List.getElem?_eq_getElem (by omega)]
      rfl
  · rw [if_pos heq] at hj1 hj2
    refine ⟨mono[i], stereo[2 * i], stereo[2 * i + 1], List.getElem?_eq_getElem (by omega),
      List.getElem?_eq_getElem (by omega), List.getElem?_eq_getElem (by omega), ?_, ?_, ?_, ?_⟩
    · rw [hj1 (2 * i), if_pos (by omega), show 2 * i / 2 = i by omega,
        List.getElem?_eq_getElem (by omega)]
      rfl
    · rw [hj1 (2 * i + 1), if_pos (by omega), show (2 * i + 1) / 2 = i by omega,
        List.getElem?_eq_getElem (by omega)]
      rfl
    · rw [hj2 (2 * i), if_pos (by omega), show 2 * i / 2 * 2 + 2 * i % 2 = 2 * i by omega,
        List.getElem?_eq_getElem (by omega)]
      rfl
    · rw [hj2 (2 * i + 1), if_pos (by omega),
        show (2 * i + 1) / 2 * 2 + (2 * i + 1) % 2 = 2 * i + 1 by omega,
        List.getElem?_eq_getElem (by omega)]
      rfl
  · rw [hj1 j, if_neg (by split_ifs at hj ⊢ <;> omega)]
  · rw [hj2 j, if_neg (by split_ifs at hj ⊢ <;> omega)]

theorem C18_layout_follows_truncated_count_witness :
    ([5, 6] : List Int).length = 2 ∧ ([5, -1, 6, -2] : List Int).length = 2 * 2 ∧
    (if (0 : Int) % 256 = 2 then 2 * 2 else 2) ≤ ([7, 7, 7] : List Int).length ∧
    ((OPL.new (silentEngine false) (fun _ => 0) 49716 0 1024).map (fun s0 => s0.mixer.channels)
      = (if 0 ≤ (0 : Int) ∧ (0 : Int) < 2097152 then some (toUInt8 0) else none) ∧
    ((toUInt8 0 : Nat) : Int) = 0 % 256 ∧
    AddSamples_m32.stores (toUInt8 0) 2 0
      = List.range (if (0 : Int) % 256 = 2 then 2 * 2 else 2) ∧
    AddSamples_s32.stores (toUInt8 0) 2 0
      = List.range (if (0 : Int) % 256 = 2 then 2 * 2 else 2) ∧
    ∃ r1 r2,
      (SampleHandler.mk [7, 7, 7] (toUInt8 0)).AddSamples_m32 2 [5, 6] = some r1 ∧
      (SampleHandler.mk [7, 7, 7] (toUInt8 0)).AddSamples_s32 2 [5, -1, 6, -2] = some r2 ∧
      r1.jsbuffer.length = ([7, 7, 7] : List Int).length ∧
      r2.jsbuffer.length = ([7, 7, 7] : List Int).length ∧
      ((0 : Int) % 256 ≠ 2 → ∀ i, i < 2 →
        ∃ a left, ([5, 6] : List Int)[i]? = some a ∧
          ([5, -1, 6, -2] : List Int)[2 * i]? = some left ∧
          r1.jsbuffer[i]? = some (amplifyClip a) ∧
          r2.jsbuffer[i]? = some (amplifyClip left)) ∧
      ((0 : Int) % 256 = 2 → ∀ i, i < 2 →
        ∃ a left right, ([5, 6] : List Int)[i]? = some a ∧
          ([5, -1, 6, -2] : List Int)[2 * i]? = some left ∧
          ([5, -1, 6, -2] : List Int)[2 * i + 1]? = some right ∧
          r1.jsbuffer[2 * i]? = some (amplifyClip a) ∧
          r1.jsbuffer[2 * i + 1]? = some (amplifyClip a) ∧
          r2.jsbuffer[2 * i]? = some (amplifyClip left) ∧
          r2.jsbuffer[2 * i + 1]? = some (amplifyClip right)) ∧
      ∀ j : Nat, (if (0 : Int) % 256 = 2 then 2 * 2 else 2) ≤ j →
        r1.jsbuffer[j]? = ([7, 7, 7] : List Int)[j]? ∧
        r2.jsbuffer[j]? = ([7, 7, 7] : List Int)[j]?) :=
  ⟨rfl, rfl, by decide,
    C18_layout_follows_truncated_count (silentEngine false) (fun _ => 0) 49716 0 1024
      [7, 7, 7] 2 [5, 6] [5, -1, 6, -2] rfl rfl (by decide)⟩

end OPLJS
